import Mathlib

/-!
Verification of the ZeroENH deterministic prompt-enhancement engine
(src/nodes/DJZ_ZeroENH_V1.py and src/nodes/DJZ_ZeroENH_V2.py).

Strings are modelled as `List Char` (Python `str`); Python dicts appearing in
the engine are modelled as association lists in source (insertion) order;
Python sets are modelled as lists used only through membership/any, which is
insensitive to duplication and order, exactly like the original set usage.
The xxhash32 function used by the source through the external `xxhash`
library is embedded from the public xxHash specification (XXH32), and was
validated against the published test vectors.
-/

set_option maxRecDepth 4000

/-! # Definitions -/

namespace ZeroENH

/-- Python strings, modelled as their list of characters. -/
abbrev Str := List Char

/-- Coerce a Lean string literal to the `List Char` model. -/
def str (s : String) : Str := s.data

/-- Python whitespace test (`str.split()`, `str.strip()`, regex `\s`),
restricted to the ASCII whitespace characters, which are the only ones
exercised by the engine's data and by the concrete inputs considered here. -/
def isWs (c : Char) : Bool :=
  c == ' ' || c == '\t' || c == '\n' || c == '\r' || c == '\x0b' || c == '\x0c'

/-- Python `str.lower`, restricted to ASCII (all vocabulary data is ASCII). -/
def lowerChar (c : Char) : Char :=
  if 'A' ≤ c ∧ c ≤ 'Z' then Char.ofNat (c.toNat + 32) else c

/-- Lower-case a whole string, as Python `str.lower()` does on ASCII data. -/
def lowerStr (s : Str) : Str := s.map lowerChar

/-- Python `str.lstrip()` (strip leading whitespace). -/
def lstripWs (s : Str) : Str := s.dropWhile isWs

/-- Python `str.rstrip()` (strip trailing whitespace). -/
def rstripWs (s : Str) : Str := s.rdropWhile isWs

/-- Python `str.strip()`. -/
def pyStrip (s : Str) : Str := rstripWs (lstripWs s)

/-- Python `str.rstrip(",")` (strip all trailing comma characters). -/
def rstripComma (s : Str) : Str := s.rdropWhile (fun c => c == ',')

/-- Python `sep.join(parts)`. -/
def joinWith (sep : Str) : List Str → Str
  | [] => []
  | [x] => x
  | x :: y :: xs => x ++ sep ++ joinWith sep (y :: xs)

/-- Python `s.split(",")`: split at every comma, keeping empty pieces. -/
def splitOnComma : Str → List Str
  | [] => [[]]
  | c :: t =>
    if c = ',' then [] :: splitOnComma t
    else
      match splitOnComma t with
      | [] => [[c]]
      | p :: ps => (c :: p) :: ps

/-- Fuel-indexed implementation of `words` (structural recursion, so the
kernel can evaluate it; every step consumes at least one character, so any
fuel of at least the string length is sufficient and irrelevant). -/
def wordsF : Nat → Str → List Str
  | 0, _ => []
  | fuel + 1, s =>
    match s.dropWhile isWs with
    | [] => []
    | c :: t =>
      (c :: t.takeWhile (fun d => !isWs d)) :: wordsF fuel (t.dropWhile (fun d => !isWs d))

/-- Python `s.split()` (split on whitespace runs, dropping empty pieces). -/
def words (s : Str) : List Str := wordsF s.length s

/-- Number of whitespace-separated words, `len(s.split())`. -/
def countWords (s : Str) : Nat := (words s).length

/-- Fuel-indexed implementation of Python `s.replace(pat, rep)` (structural
recursion; every step consumes at least one character when the pattern is
non-empty, so any fuel of at least the string length is sufficient). -/
def replaceAllF (pat rep : Str) : Nat → Str → Str
  | 0, s => s
  | _ + 1, [] => []
  | fuel + 1, c :: t =>
    if pat.isEmpty then c :: t
    else if pat.isPrefixOf (c :: t) then
      rep ++ replaceAllF pat rep fuel ((c :: t).drop pat.length)
    else c :: replaceAllF pat rep fuel t

/-- Python `s.replace(pat, rep)`: replace every non-overlapping occurrence,
left to right.  (The engine never calls it with an empty pattern; for an
empty pattern this model returns the string unchanged.) -/
def replaceAll (pat rep s : Str) : Str := replaceAllF pat rep s.length s

/-- Substring test, Python `pat in s`. -/
def containsSub (pat : Str) : Str → Bool
  | [] => pat.isEmpty
  | c :: t => pat.isPrefixOf (c :: t) || containsSub pat t

/-! ## XXH32 (the external `xxhash` library's 32-bit hash)

Embedded from the public xxHash specification; the engine calls it through
`xxhash.xxh32(seed=...)` / `.update(...)` / `.intdigest()`. -/
/-- 2^32, the modulus for all 32-bit arithmetic. -/
def M32 : Nat := 4294967296

def XXH_PRIME1 : Nat := 2654435761

def XXH_PRIME2 : Nat := 2246822519

def XXH_PRIME3 : Nat := 3266489917

def XXH_PRIME4 : Nat := 668265263

def XXH_PRIME5 : Nat := 374761393

/-- 32-bit left rotation (argument assumed `< 2^32`, `0 < r < 32`). -/
def rotl32 (x r : Nat) : Nat := (x % 2 ^ (32 - r)) * 2 ^ r + x / 2 ^ (32 - r)

/-- Addition mod 2^32. -/
def add32 (a b : Nat) : Nat := (a + b) % M32

/-- Multiplication mod 2^32. -/
def mul32 (a b : Nat) : Nat := (a * b) % M32

/-- Read a 32-bit little-endian value from the first four bytes. -/
def le32 (bs : List Nat) : Nat :=
  match bs with
  | b0 :: b1 :: b2 :: b3 :: _ => b0 + b1 * 256 + b2 * 65536 + b3 * 16777216
  | _ => 0

/-- One XXH32 accumulator round. -/
def xxhRound (acc lane : Nat) : Nat :=
  mul32 (rotl32 (add32 acc (mul32 lane XXH_PRIME2)) 13) XXH_PRIME1

/-- Consume 16-byte stripes, updating the four accumulators. -/
def xxhStripes (v1 v2 v3 v4 : Nat) : List Nat → Nat × Nat × Nat × Nat × List Nat
  | b0 :: b1 :: b2 :: b3 :: b4 :: b5 :: b6 :: b7 :: b8 :: b9 :: b10 :: b11 ::
      b12 :: b13 :: b14 :: b15 :: rest =>
    xxhStripes (xxhRound v1 (le32 [b0, b1, b2, b3]))
      (xxhRound v2 (le32 [b4, b5, b6, b7]))
      (xxhRound v3 (le32 [b8, b9, b10, b11]))
      (xxhRound v4 (le32 [b12, b13, b14, b15])) rest
  | bs => (v1, v2, v3, v4, bs)

/-- Consume remaining 4-byte chunks after the stripes. -/
def xxhChunks (acc : Nat) : List Nat → Nat × List Nat
  | b0 :: b1 :: b2 :: b3 :: rest =>
    xxhChunks (mul32 (rotl32 (add32 acc
      (mul32 (le32 [b0, b1, b2, b3]) XXH_PRIME3)) 17) XXH_PRIME4) rest
  | bs => (acc, bs)

/-- Consume one trailing byte. -/
def xxhByte (acc b : Nat) : Nat :=
  mul32 (rotl32 (add32 acc (mul32 b XXH_PRIME5)) 11) XXH_PRIME1

/-- The XXH32 final avalanche. -/
def xxhAvalanche (h : Nat) : Nat :=
  let h1 := h ^^^ (h >>> 15)
  let h2 := mul32 h1 XXH_PRIME2
  let h3 := h2 ^^^ (h2 >>> 13)
  let h4 := mul32 h3 XXH_PRIME3
  h4 ^^^ (h4 >>> 16)

/-- XXH32 of a byte string with a seed (the value of
`xxhash.xxh32(data, seed=seed).intdigest()`). -/
def xxh32 (bs : List Nat) (seed : Nat) : Nat :=
  let seed := seed % M32
  let acc :=
    if 16 ≤ bs.length then
      let r := xxhStripes (add32 seed (add32 XXH_PRIME1 XXH_PRIME2)) (add32 seed XXH_PRIME2)
        seed ((seed + M32 - XXH_PRIME1 % M32) % M32) bs
      ((rotl32 r.1 1 + rotl32 r.2.1 7 + rotl32 r.2.2.1 12 + rotl32 r.2.2.2.1 18) % M32,
        r.2.2.2.2)
    else (add32 seed XXH_PRIME5, bs)
  let h0 := add32 acc.1 bs.length
  let c := xxhChunks h0 acc.2
  xxhAvalanche (c.2.foldl xxhByte c.1)

/-- UTF-8 encoding of one character (Python `str.encode()`). -/
def utf8EncodeChar (c : Char) : List Nat :=
  let n := c.toNat
  if n < 128 then [n]
  else if n < 2048 then [192 + n / 64, 128 + n % 64]
  else if n < 65536 then [224 + n / 4096, 128 + n / 64 % 64, 128 + n % 64]
  else [240 + n / 262144, 128 + n / 4096 % 64, 128 + n / 64 % 64, 128 + n % 64]

/-- UTF-8 encoding of a string, Python `s.encode()`. -/
def utf8Encode (s : Str) : List Nat := (s.map utf8EncodeChar).flatten

/-- Four little-endian bytes of a 32-bit value (`struct.pack("<I", n)`). -/
def le4 (n : Nat) : List Nat := [n % 256, n / 256 % 256, n / 65536 % 256, n / 16777216 % 256]

/-- `enhancement_hash(seed, input_hash, coord)`: xxh32 seeded with
`seed & 0xFFFFFFFF` over `struct.pack("<II", input_hash & 0xFFFFFFFF,
coord & 0xFFFFFFFF)`. -/
def enhancement_hash (seed input_hash coord : Nat) : Nat :=
  xxh32 (le4 (input_hash % M32) ++ le4 (coord % M32)) (seed % M32)

/-- `hash_to_index(h, pool_size)`. -/
def hash_to_index (h pool_size : Nat) : Nat := h % pool_size

/-! ## Regex-substitution helpers used by `safe_format_template`

Each definition embeds one concrete `re.sub` pattern from the source, with
Python leftmost / non-overlapping / greedy semantics specialised to that
pattern. -/
/-- Fuel-indexed implementation of `re.sub(r"\s+", " ", s)` (each step
consumes at least one character, so fuel of at least the length suffices). -/
def collapseWsF : Nat → Str → Str
  | _, [] => []
  | 0, s => s
  | fuel + 1, c :: t =>
    if isWs c then ' ' :: collapseWsF fuel (t.dropWhile isWs)
    else c :: collapseWsF fuel t

/-- The substitution `re.sub(r"\s+", " ", s)`: each maximal whitespace run
becomes one space. -/
def collapseWs (s : Str) : Str := collapseWsF s.length s

/-- Fuel-indexed implementation of `re.sub(r"\s*,\s*", ", ", s)`. -/
def normCommaSpacingF : Nat → Str → Str
  | _, [] => []
  | 0, s => s
  | fuel + 1, c :: t =>
    match (c :: t).dropWhile isWs with
    | ',' :: r2 => ',' :: ' ' :: normCommaSpacingF fuel (r2.dropWhile isWs)
    | _ => c :: normCommaSpacingF fuel t

/-- The substitution `re.sub(r"\s*,\s*", ", ", s)`: a comma together with the
whitespace around it becomes a comma and one space. -/
def normCommaSpacing (s : Str) : Str := normCommaSpacingF s.length s

/-- Eat the rest of a `(,\s*)+` run whose first comma was already consumed:
the greedy match consumes exactly the maximal following prefix of
whitespace and comma characters. -/
def eatCommaRun (s : Str) : Str := s.dropWhile (fun c => isWs c || c == ',')

/-- Fuel-indexed implementation of `re.sub(r"(,\s*)+", ", ", s)`. -/
def collapseCommaRunsF : Nat → Str → Str
  | _, [] => []
  | 0, s => s
  | fuel + 1, c :: t =>
    if c = ',' then ',' :: ' ' :: collapseCommaRunsF fuel (eatCommaRun t)
    else c :: collapseCommaRunsF fuel t

/-- The substitution `re.sub(r"(,\s*)+", ", ", s)`: each run of commas with
interleaved whitespace becomes a comma and one space. -/
def collapseCommaRuns (s : Str) : Str := collapseCommaRunsF s.length s

/-- The anchored substitution `re.sub(r"^\s*,\s*", "", s)`. -/
def stripLeadingComma (s : Str) : Str :=
  match s.dropWhile isWs with
  | ',' :: r2 => r2.dropWhile isWs
  | _ => s

/-- The anchored substitution `re.sub(r"\s*,\s*$", "", s)`. -/
def stripTrailingComma (s : Str) : Str :=
  if (rstripWs s).getLast? = some ',' then rstripWs ((rstripWs s).dropLast) else s

/-- The anchored substitution `re.sub(r"\s*atmosphere\s*$", " atmosphere", s)`. -/
def fixAtmosphere (s : Str) : Str :=
  let t := rstripWs s
  if (str "atmosphere").reverse.isPrefixOf t.reverse then
    rstripWs (t.take (t.length - 10)) ++ ' ' :: str "atmosphere"
  else s

/-- The anchored substitution `re.sub(r"^\s*scene\s*,", "", s)`. -/
def stripLeadingScene (s : Str) : Str :=
  let r := s.dropWhile isWs
  if (str "scene").isPrefixOf r then
    match ((r.drop 5).dropWhile isWs) with
    | ',' :: r3 => r3
    | _ => s
  else s

/-- One iteration body of the final cleanup loop:
`result.replace(",,", ",").replace(", ,", ",")`. -/
def cleanupStep (s : Str) : Str :=
  replaceAll (str ", ,") (str ",") (replaceAll (str ",,") (str ",") s)

/-- Fuel-indexed implementation of the final cleanup loop (each iteration
strictly shortens the string, so fuel beyond the length is sufficient). -/
def cleanupLoopF : Nat → Str → Str
  | 0, s => s
  | fuel + 1, s =>
    if containsSub (str ",,") s || containsSub (str ", ,") s then
      cleanupLoopF fuel (cleanupStep s)
    else s

/-- The final cleanup loop of `safe_format_template`:
`while ",," in result or ", ," in result:
result = result.replace(",,", ",").replace(", ,", ",")`. -/
def cleanupLoop (s : Str) : Str := cleanupLoopF (s.length + 1) s

/-! ## Phase 1: tokenization -/
/-- Whether the secondary-delimiter regex `\s+-\s+|\s+\|\s+` matches at the
start of `s`: a whitespace run, then a hyphen or bar, then more whitespace. -/
def delimAt (s : Str) : Bool :=
  match s with
  | [] => false
  | c :: _ =>
    if isWs c then
      match s.dropWhile isWs with
      | d :: r2 =>
        (d == '-' || d == '|') &&
          (match r2 with
           | e :: _ => isWs e
           | [] => false)
      | [] => false
    else false

/-- The part of `s` after the greedy secondary-delimiter match at its start. -/
def afterDelim (s : Str) : Str := ((s.dropWhile isWs).drop 1).dropWhile isWs

/-- Fuel-indexed implementation of the secondary-delimiter split (each step
consumes at least one character, so fuel of at least the length suffices;
a delimiter match starts with a whitespace character and consumes it). -/
def splitDashPipeF : Nat → Str → List Str
  | _, [] => [[]]
  | 0, s => [s]
  | fuel + 1, c :: t =>
    if delimAt (c :: t) then [] :: splitDashPipeF fuel (afterDelim (c :: t))
    else
      match splitDashPipeF fuel t with
      | [] => [[c]]
      | p :: ps => (c :: p) :: ps

/-- Python `re.split(r"\s+-\s+|\s+\|\s+", token)`. -/
def splitDashPipe (s : Str) : List Str := splitDashPipeF s.length s

/-- `tokenize(prompt)`: split on commas, then on the secondary delimiters,
strip whitespace, and drop empty pieces. -/
def tokenize (prompt : Str) : List Str :=
  (((splitOnComma prompt).map splitDashPipe).flatten.map pyStrip).filter
    (fun t => !t.isEmpty)

/-! ## Phase 2: classification -/
/-- Classification rules of one category: keyword substrings, and the
"regex-equivalent matchers" (spec wording) for the category's patterns. -/
structure ClassRules where
  keywords : List Str
  patterns : List (Str → Bool)

/-- Anchored-start regex `^lit...` applied with `re.search`. -/
def patStartsWith (lit : Str) (s : Str) : Bool := lit.isPrefixOf s

/-- Anchored-end regex `...lit$` applied with `re.search`. -/
def patEndsWith (lit : Str) (s : Str) : Bool := lit.reverse.isPrefixOf s.reverse

/-- Whether `ing\s+(in|on|at|through|over|above|below|near)` matches at the
start of `s`. -/
def patIngPrepAt (s : Str) : Bool :=
  (str "ing").isPrefixOf s &&
    (let r := s.drop 3
     !(r.takeWhile isWs).isEmpty &&
       [str "in", str "on", str "at", str "through", str "over", str "above",
        str "below", str "near"].any (fun w => w.isPrefixOf (r.dropWhile isWs)))

/-- The action-category regex `re.search(r"ing\s+(in|on|at|through|over|above|below|near)", s)`. -/
def patIngPrep : Str → Bool
  | [] => false
  | c :: t => patIngPrepAt (c :: t) || patIngPrep t

/-- The camera-category regex `re.search(r"^\d+mm", s)`. -/
def patDigitsMm (s : Str) : Bool :=
  !(s.takeWhile Char.isDigit).isEmpty &&
    (str "mm").isPrefixOf (s.dropWhile Char.isDigit)

/-- The details-category regex `re.search(r"^\d+k$", s)`. -/
def patDigitsK (s : Str) : Bool :=
  !(s.takeWhile Char.isDigit).isEmpty && s.dropWhile Char.isDigit == str "k"

/-- `classify_token_multi(token, classification)`: all categories whose
keywords (or, when no keyword matches, patterns) match the lower-cased
token; `["unclassified"]` when none match. -/
def classify_token_multi (token : Str) (classification : List (Str × ClassRules)) :
    List Str :=
  let token_lower := lowerStr token
  let categories := (classification.filter (fun cr =>
    if cr.2.keywords.any (fun k => containsSub k token_lower) then true
    else cr.2.patterns.any (fun p => p token_lower))).map Prod.fst
  if categories.isEmpty then [str "unclassified"] else categories

/-- The fixed category iteration order of the engine. -/
def ORDERED_CATEGORIES : List Str :=
  [str "subject", str "action", str "environment", str "style",
   str "lighting", str "camera", str "details", str "mood"]

/-- The bucket of one key of the `classified` dict: the tokens recorded
under that key by the `classify_all_tokens` loop, in token order. -/
def bucketFor (tokens : List Str) (classification : List (Str × ClassRules))
    (cat : Str) : List Str :=
  tokens.filter (fun t => (classify_token_multi t classification).contains cat)

/-- `classify_all_tokens(tokens, classification)`: the dict with the eight
fixed categories plus `"unclassified"` as keys, each mapped to its bucket. -/
def classify_all_tokens (tokens : List Str)
    (classification : List (Str × ClassRules)) : List (Str × List Str) :=
  (ORDERED_CATEGORIES ++ [str "unclassified"]).map
    (fun cat => (cat, bucketFor tokens classification cat))

/-! ## Phase 3: gaps, category rules, intensity -/
/-- Lexicographic (code-point) comparison, Python `<` on strings. -/
def strLt : Str → Str → Bool
  | [], [] => false
  | [], _ :: _ => true
  | _ :: _, [] => false
  | a :: s, b :: t =>
    if a.toNat < b.toNat then true
    else if b.toNat < a.toNat then false
    else strLt s t

/-- Insert into a sorted list, before the first not-smaller element. -/
def insertStr (x : Str) : List Str → List Str
  | [] => [x]
  | y :: ys => if strLt y x then y :: insertStr x ys else x :: y :: ys

/-- Python `sorted` on strings (stable; unique result on distinct keys). -/
def sortStr (l : List Str) : List Str := l.foldr insertStr []

/-- `find_gaps(classified, pools)`: pool categories with an empty
classification bucket, sorted for determinism. -/
def find_gaps (classified : List (Str × List Str))
    (pools : List (Str × List Str)) : List Str :=
  let present := (classified.filter
    (fun kv => !kv.2.isEmpty && !(kv.1 == str "unclassified"))).map Prod.fst
  sortStr (((pools.map Prod.fst).dedup).filter (fun k => !present.contains k))

/-- The `rules` dict of a profile. -/
structure CategoryRules where
  mandatory : List Str
  never_override : List Str
  standard : List Str
  optional : List Str

/-- `apply_category_rules(gaps, rules, intensity)`. -/
def apply_category_rules (gaps : List Str) (rules : CategoryRules)
    (intensity : Str) : List Str :=
  gaps.filter (fun gap =>
    if rules.mandatory.contains gap then true
    else if rules.standard.contains gap then true
    else if rules.optional.contains gap then
      intensity == str "moderate" || intensity == str "full"
    else false)

/-- `INTENSITY_RATES` as exact fractions.  The source stores the binary
floats 0.25 / 0.50 / 0.75 / 1.00, which are exact, and uses them only in
`int(len(gaps) * rate)`; for every list length below 2^51 that equals the
natural-number floor of the fraction used here. -/
def INTENSITY_RATES : List (Str × (Nat × Nat)) :=
  [(str "minimal", (1, 4)), (str "light", (1, 2)),
   (str "moderate", (3, 4)), (str "full", (1, 1))]

/-- Insert into a score-sorted list, before the first not-smaller score
(this is the unique stable ascending sort, as produced by Python's
`list.sort(key=...)`). -/
def insertByScore (x : Str × Nat) : List (Str × Nat) → List (Str × Nat)
  | [] => [x]
  | y :: ys => if y.2 < x.2 then y :: insertByScore x ys else x :: y :: ys

/-- Stable ascending sort by score. -/
def sortByScore (l : List (Str × Nat)) : List (Str × Nat) := l.foldr insertByScore []

/-- `select_gaps_to_fill(seed, input_hash, gaps, intensity)`. -/
def select_gaps_to_fill (seed input_hash : Nat) (gaps : List Str)
    (intensity : Str) : List Str :=
  let rate := (INTENSITY_RATES.lookup intensity).getD (3, 4)
  if rate.2 ≤ rate.1 then gaps
  else
    let num_to_fill := max 1 (gaps.length * rate.1 / rate.2)
    if gaps.length ≤ num_to_fill then gaps
    else
      let gap_scores := gaps.enum.map
        (fun ig => (ig.2, enhancement_hash seed input_hash (2000 + ig.1)))
      ((sortByScore gap_scores).take num_to_fill).map Prod.fst

/-! ## Phase 4: anti-pairing and enhancement selection -/
/-- `build_forbidden_set(existing_tokens, anti_pairs)` (a Python set; the
engine only tests membership through `any`, so a duplicate-admitting list
is an equivalent model). -/
def build_forbidden_set (existing_tokens : List Str)
    (anti_pairs : List (Str × List Str)) : List Str :=
  (existing_tokens.map (fun token =>
    ((anti_pairs.filter (fun ti => containsSub ti.1 (lowerStr token))).map
      Prod.snd).flatten.map lowerStr)).flatten

/-- `any(f in selection.lower() for f in forbidden)`. -/
def conflictsWith (forbidden : List Str) (s : Str) : Bool :=
  forbidden.any (fun f => containsSub f (lowerStr s))

/-- The conflict-resolution loop of `select_with_antipair_check`: try
alternates at `conflict_coord + attempt` while `attempt < max_attempts`,
returning the first conflict-free one. -/
def antipairSearch (seed input_hash conflict_coord : Nat) (pool : List Str)
    (hpool : 0 < pool.length) (forbidden : List Str) :
    Nat → Nat → Option Str
  | _, 0 => none
  | attempt, remaining + 1 =>
    let alt := pool.get ⟨hash_to_index
      (enhancement_hash seed input_hash (conflict_coord + attempt)) pool.length,
      Nat.mod_lt _ hpool⟩
    if conflictsWith forbidden alt then
      antipairSearch seed input_hash conflict_coord pool hpool forbidden
        (attempt + 1) remaining
    else some alt

/-- `select_with_antipair_check(seed, input_hash, category_idx, pool,
forbidden)`.  Python raises on an empty pool (`h % 0`); this is modelled by
returning `none`. -/
def select_with_antipair_check (seed input_hash category_idx : Nat)
    (pool : List Str) (forbidden : List Str) : Option Str :=
  if hpool : 0 < pool.length then
    let selection := pool.get ⟨hash_to_index
      (enhancement_hash seed input_hash category_idx) pool.length,
      Nat.mod_lt _ hpool⟩
    if conflictsWith forbidden selection then
      match antipairSearch seed input_hash (category_idx + 1000) pool hpool
        forbidden 0 (min pool.length 50) with
      | some alt => some alt
      | none => some selection
    else some selection
  else none

/-! ## Phase 5: template selection and formatting -/
/-- `select_template(seed, input_hash, templates)`; `none` models the
Python `h % 0` exception on an empty template list. -/
def select_template (seed input_hash : Nat) (templates : List Str) : Option Str :=
  if h : 0 < templates.length then
    some (templates.get ⟨hash_to_index
      (enhancement_hash seed input_hash 0) templates.length, Nat.mod_lt _ h⟩)
  else none

/-- The placeholder literal for a key. -/
def placeholder (key : Str) : Str := '\x7b' :: (key ++ ['\x7d'])

/-- The substitution loop of `safe_format_template` (components in
insertion order; an empty value removes the placeholder). -/
def substitute (components : List (Str × Str)) (template : Str) : Str :=
  components.foldl
    (fun r kv =>
      if kv.2.isEmpty then replaceAll (placeholder kv.1) [] r
      else replaceAll (placeholder kv.1) kv.2 r)
    template

/-- `safe_format_template(template, components)`: substitution followed by
the fixed normalisation sequence (order preserved from the source). -/
def safe_format_template (template : Str) (components : List (Str × Str)) : Str :=
  let r := substitute components template
  let r := collapseWs r
  let r := normCommaSpacing r
  let r := collapseCommaRuns r
  let r := stripLeadingComma r
  let r := stripTrailingComma r
  let r := fixAtmosphere r
  let r := stripLeadingScene r
  let r := pyStrip r
  cleanupLoop r

/-! ## Phase 6: merging and deduplication -/
/-- `merge_with_unclassified(enhanced, unclassified)`. -/
def merge_with_unclassified (enhanced : Str) (unclassified : List Str) : Str :=
  if unclassified.isEmpty then enhanced
  else enhanced ++ str ", " ++ joinWith (str ", ") unclassified

/-- The stemmer of `deduplicate_prompt`: strip the first applicable suffix
of `["ing","ed","ly","s"]` when the stem stays longer than the suffix
length plus two. -/
def applySuffix (st : Str) : List Str → Str
  | [] => st
  | suf :: rest =>
    if suf.reverse.isPrefixOf st.reverse && decide (suf.length + 2 < st.length) then
      st.take (st.length - suf.length)
    else applySuffix st rest

/-- Stem of one comma-segment (lower-case, then strip one suffix). -/
def stemOf (token : Str) : Str :=
  applySuffix (lowerStr token) [str "ing", str "ed", str "ly", str "s"]

/-- The duplicate test of `deduplicate_prompt`: the stem was seen, or its
(distinct-)word set overlaps a seen stem's word set by at least 70% of the
smaller set.  `len(overlap) >= min * 0.7` on Python floats coincides with
`7 * min <= 10 * overlap` for all the (small, integral) sizes involved. -/
def isDupOf (seen : List Str) (stem : Str) : Bool :=
  seen.contains stem ||
    (let ws := (words stem).dedup
     !ws.isEmpty && seen.any (fun sn =>
       let sw := (words sn).dedup
       7 * min ws.length sw.length ≤ 10 * (ws.filter (fun w => sw.contains w)).length))

/-- The main loop of `deduplicate_prompt`: first occurrence wins, order
preserved (the `seen` set is only read through membership / `any`). -/
def dedupGo (seen : List Str) : List Str → List Str
  | [] => []
  | token :: rest =>
    let stem := stemOf token
    if isDupOf seen stem then dedupGo seen rest
    else token :: dedupGo (stem :: seen) rest

/-- `deduplicate_prompt(prompt)`. -/
def deduplicate_prompt (prompt : Str) : Str :=
  let tokens := ((splitOnComma prompt).map pyStrip).filter (fun t => !t.isEmpty)
  joinWith (str ", ") (dedupGo [] tokens)

/-! ## Phase 7: length enforcement -/
/-- `enforce_length_limit(prompt, max_words)`: return unchanged when within
the budget, else keep the first `max_words` whitespace-words, rejoin with
single spaces, and strip trailing commas and whitespace. -/
def enforce_length_limit (prompt : Str) (max_words : Nat) : Str :=
  let ws := words prompt
  if ws.length ≤ max_words then prompt
  else rstripWs (rstripComma (joinWith [' '] (ws.take max_words)))

/-! ## Profile data model -/
/-- An already-resolved profile, holding exactly the five engine-facing
fields of the profile dict (`templates`, `pools`, `classification`,
`rules`, `anti_pairs`); the engine reads nothing else.  Per-field `dict.get`
fallbacks in V2 are the identity on profiles defining all five keys, which
all profiles considered here do. -/
structure Profile where
  templates : List Str
  pools : List (Str × List Str)
  classification : List (Str × ClassRules)
  rules : CategoryRules
  anti_pairs : List (Str × List Str)

/-- An ASCII apostrophe (used inside some vocabulary phrases). -/
def apos : Char := '\x27'

/-- The `templates` list of the built-in default profile. -/
def defaultTemplates : List Str :=
  [str "{subject}, {environment}, {style}, {lighting}, {camera}, {details}, {mood} atmosphere",
   str "{subject}, {environment}, {style}, {lighting}, {details}, {mood}",
   str "{style}, {subject}, {environment}, {lighting}, {camera}, {details}",
   str "{camera}, {subject}, {environment}, {style}, {lighting}, {details}",
   str "{subject}, {environment}, {style}, {lighting}, {details}",
   str "{mood} scene, {subject}, {environment}, {style}, {lighting}, {details}",
   str "{subject}, {action}, {environment}, {style}, {lighting}, {details}",
   str "{style}, {subject}, {environment}, {lighting}, {mood}, {details}"]

/-- The `subject` pool of the built-in default profile. -/
def defaultPoolSubject : List Str :=
  [str "a woman", str "a man", str "a young woman", str "a young man", str "an elderly woman",
   str "an elderly man", str "a child", str "a teenager", str "a couple", str "a group of people",
   str "a knight", str "a wizard", str "a witch", str "a sorceress", str "a necromancer",
   str "a paladin", str "a rogue", str "an assassin", str "a ranger", str "a barbarian",
   str "a druid", str "a monk", str "a bard", str "a warlock", str "an elven archer",
   str "a dwarven smith", str "an orc warrior", str "a goblin", str "a fairy", str "a nymph",
   str "a cyborg", str "an android", str "a robot", str "a mech pilot", str "an astronaut",
   str "a space marine", str "an alien", str "a hacker", str "a scientist", str "a bounty hunter",
   str "a samurai", str "a ninja", str "a viking", str "a gladiator", str "a pharaoh",
   str "a geisha", str "a shogun", str "a roman soldier", str "a medieval peasant", str "a noble",
   str "a detective", str "a soldier", str "a pilot", str "a doctor", str "an artist",
   str "a musician", str "a dancer", str "an athlete", str "a chef", str "a photographer",
   str "a dragon", str "a phoenix", str "a griffin", str "a unicorn", str "a werewolf",
   str "a vampire", str "a demon", str "an angel", str "a ghost", str "a spirit",
   str "a wolf", str "a lion", str "a tiger", str "an eagle", str "a raven",
   str "a serpent", str "a whale", str "a shark", str "a butterfly", str "a spider",
   str "a mechanical spider", str "a clockwork automaton", str "a golem", str "a sentient statue",
   str "a living shadow", str "an elemental being", str "a slime creature", str "a treant"]

/-- The `action` pool of the built-in default profile. -/
def defaultPoolAction : List Str :=
  [str "standing in", str "sitting in", str "kneeling in", str "floating above", str "hovering over",
   str "resting in", str "meditating in", str "posing in", str "waiting in", str "watching over",
   str "walking through", str "running through", str "flying over", str "swimming in", str "climbing",
   str "falling into", str "descending into", str "ascending toward", str "emerging from", str "diving into",
   str "fighting in", str "battling through", str "defending", str "attacking", str "dueling in",
   str "charging through", str "retreating from", str "ambushing in", str "hunting in",
   str "exploring", str "discovering", str "searching through", str "investigating",
   str "summoning power in", str "casting a spell in", str "channeling energy in",
   str "communing with nature in", str "praying in", str "performing a ritual in",
   str "transforming in", str "shapeshifting in", str "awakening in",
   str "mourning in", str "celebrating in", str "contemplating in", str "dreaming in"]

/-- The `environment` pool of the built-in default profile. -/
def defaultPoolEnvironment : List Str :=
  [str "a dark forest", str "an enchanted forest", str "a misty forest", str "a bamboo forest",
   str "a snowy mountain", str "a volcanic mountain", str "a floating mountain",
   str "a vast desert", str "an oasis", str "a canyon", str "a waterfall", str "a river",
   str "a beach at sunset", str "a stormy sea", str "a coral reef", str "an underwater cavern",
   str "a medieval castle", str "a ruined fortress", str "a gothic cathedral",
   str "an ancient temple", str "a hidden shrine", str "a sacred grove",
   str "a wizard" ++ apos :: str "s tower", str "an alchemist" ++ apos :: str "s laboratory",
   str "a royal throne room",
   str "a dungeon", str "catacombs", str "a crypt", str "a graveyard at midnight",
   str "a cyberpunk city", str "a neon-lit alley", str "a futuristic metropolis",
   str "a space station", str "an alien planet", str "a terraformed moon",
   str "a dystopian wasteland", str "a post-apocalyptic city", str "a megastructure",
   str "a virtual reality world", str "inside a computer mainframe",
   str "a crystal cave", str "a bioluminescent cavern", str "a floating island",
   str "the astral plane", str "between dimensions", str "the void",
   str "a pocket dimension", str "a mirror world", str "a dream realm",
   str "cherry blossom gardens", str "an autumn forest", str "a field of flowers",
   str "under the northern lights", str "during a solar eclipse"]

/-- The `style` pool of the built-in default profile. -/
def defaultPoolStyle : List Str :=
  [str "photorealistic", str "hyperrealistic", str "cinematic", str "film still",
   str "documentary photography", str "portrait photography", str "fashion photography",
   str "oil painting", str "watercolor painting", str "acrylic painting", str "gouache",
   str "charcoal drawing", str "pencil sketch", str "ink drawing", str "fresco",
   str "art nouveau", str "art deco", str "baroque", str "renaissance", str "romanticism",
   str "impressionist", str "expressionist", str "surrealist", str "cubist",
   str "pre-raphaelite", str "ukiyo-e", str "chinese ink wash",
   str "concept art", str "digital painting", str "matte painting", str "3D render",
   str "low poly 3D", str "voxel art", str "pixel art", str "vector art",
   str "anime style", str "manga style", str "studio ghibli style", str "disney style",
   str "pixar style", str "cartoon style", str "comic book style", str "graphic novel style",
   str "vaporwave aesthetic", str "synthwave", str "cyberpunk aesthetic", str "solarpunk",
   str "dark academia", str "cottagecore", str "steampunk", str "dieselpunk", str "biopunk",
   str "dark souls style", str "elden ring style", str "final fantasy style"]

/-- The `lighting` pool of the built-in default profile. -/
def defaultPoolLighting : List Str :=
  [str "golden hour lighting", str "blue hour lighting", str "harsh midday sun",
   str "soft overcast light", str "dappled forest light", str "sunset backlight",
   str "sunrise light", str "moonlight", str "starlight",
   str "dramatic rim lighting", str "chiaroscuro lighting", str "spotlight",
   str "harsh shadows", str "silhouette lighting", str "contre-jour",
   str "neon lighting", str "fluorescent lighting", str "candlelight", str "firelight",
   str "bioluminescent glow", str "magical glow", str "holographic light",
   str "volumetric lighting", str "god rays", str "light shafts", str "foggy atmosphere",
   str "misty atmosphere", str "dusty atmosphere", str "rainy atmosphere",
   str "warm lighting", str "cool lighting", str "neutral lighting",
   str "high contrast", str "low key lighting", str "high key lighting"]

/-- The `camera` pool of the built-in default profile. -/
def defaultPoolCamera : List Str :=
  [str "extreme close-up", str "close-up portrait", str "medium shot", str "full body shot",
   str "wide shot", str "extreme wide shot", str "establishing shot",
   str "eye level", str "low angle shot", str "high angle shot",
   str "bird" ++ apos :: str "s eye view",
   str "worm" ++ apos :: str "s eye view", str "dutch angle", str "overhead shot",
   str "first person view", str "over the shoulder", str "point of view shot",
   str "three-quarter view", str "profile view", str "frontal view", str "rear view",
   str "shallow depth of field", str "deep focus", str "bokeh background",
   str "motion blur", str "long exposure", str "tilt-shift", str "fisheye lens",
   str "wide angle lens", str "telephoto compression", str "macro shot"]

/-- The `details` pool of the built-in default profile. -/
def defaultPoolDetails : List Str :=
  [str "highly detailed", str "intricate details", str "fine details", str "subtle details",
   str "sharp focus", str "crystal clear", str "pristine quality",
   str "4k", str "8k", str "high resolution", str "ultra HD",
   str "masterpiece", str "award winning", str "professional", str "museum quality",
   str "trending on artstation", str "featured on behance", str "gallery quality",
   str "ray tracing", str "global illumination", str "subsurface scattering",
   str "ambient occlusion", str "realistic textures", str "photogrammetry",
   str "expressive brushwork", str "visible brushstrokes", str "smooth gradients",
   str "rich colors", str "vibrant palette", str "muted tones", str "monochromatic"]

/-- The `mood` pool of the built-in default profile. -/
def defaultPoolMood : List Str :=
  [str "serene", str "peaceful", str "tranquil", str "joyful", str "euphoric",
   str "whimsical", str "playful", str "romantic", str "hopeful", str "triumphant",
   str "ominous", str "foreboding", str "melancholic", str "sorrowful", str "tragic",
   str "terrifying", str "horrific", str "unsettling", str "disturbing",
   str "mysterious", str "enigmatic", str "surreal", str "dreamlike", str "ethereal",
   str "nostalgic", str "bittersweet", str "contemplative", str "introspective",
   str "tense", str "intense", str "chaotic", str "explosive", str "dynamic",
   str "calm", str "still", str "quiet", str "subtle", str "understated",
   str "epic", str "grand", str "intimate", str "cozy", str "lonely", str "isolated"]

/-- The `pools` dict of the built-in default profile. -/
def defaultPools : List (Str × List Str) :=
  [(str "subject", defaultPoolSubject),
   (str "action", defaultPoolAction),
   (str "environment", defaultPoolEnvironment),
   (str "style", defaultPoolStyle),
   (str "lighting", defaultPoolLighting),
   (str "camera", defaultPoolCamera),
   (str "details", defaultPoolDetails),
   (str "mood", defaultPoolMood)]

/-- The `classification` table of the built-in default profile.  Each regex
of the source is given as the equivalent matcher on the lower-cased token:
anchored literal prefixes / suffixes stay literal (an optional trailing
group such as `(a |an |the )?` is nullable, so `^in (a |an |the )?` matches
exactly when `"in "` is a prefix), and the three non-literal regexes are
`patIngPrep`, `patDigitsMm` and `patDigitsK` above. -/
def defaultClassification : List (Str × ClassRules) :=
  [(str "subject",
    { keywords :=
        [str "woman", str "man", str "girl", str "boy", str "person", str "people", str "child", str "teen",
         str "knight", str "wizard", str "witch", str "warrior", str "soldier", str "samurai", str "ninja",
         str "dragon", str "phoenix", str "wolf", str "lion", str "tiger", str "cat", str "dog", str "bird",
         str "robot", str "android", str "cyborg", str "alien", str "demon", str "angel", str "ghost",
         str "fairy", str "elf", str "dwarf", str "orc", str "goblin", str "vampire", str "werewolf"],
      patterns :=
        [patStartsWith (str "a "), patStartsWith (str "an "),
         patStartsWith (str "the "), patStartsWith (str "my ")] }),
   (str "action",
    { keywords :=
        [str "standing", str "sitting", str "walking", str "running", str "flying", str "swimming",
         str "fighting", str "battling", str "dancing", str "singing", str "playing", str "reading",
         str "casting", str "summoning", str "meditating", str "praying", str "sleeping", str "dreaming",
         str "exploring", str "hunting", str "searching", str "watching", str "waiting"],
      patterns := [patIngPrep] }),
   (str "environment",
    { keywords :=
        [str "forest", str "mountain", str "desert", str "ocean", str "sea", str "beach", str "river",
         str "city", str "town", str "village", str "castle", str "tower", str "temple", str "church",
         str "cave", str "cavern", str "dungeon", str "ruins", str "wasteland", str "garden",
         str "space", str "planet", str "moon", str "station", str "void", str "dimension", str "realm"],
      patterns :=
        [patStartsWith (str "in "), patStartsWith (str "at "), patStartsWith (str "inside")] }),
   (str "style",
    { keywords :=
        [str "photorealistic", str "hyperrealistic", str "realistic", str "cinematic",
         str "painting", str "drawing", str "sketch", str "illustration", str "render",
         str "anime", str "manga", str "cartoon", str "comic", str "pixel", str "voxel",
         str "baroque", str "renaissance", str "impressionist", str "surrealist",
         str "cyberpunk", str "steampunk", str "solarpunk", str "dieselpunk",
         str "art nouveau", str "art deco", str "gothic", str "victorian"],
      patterns :=
        [patEndsWith (str "style"), patEndsWith (str "aesthetic"),
         patStartsWith (str "in the style of")] }),
   (str "lighting",
    { keywords :=
        [str "lighting", str "light", str "lit", str "glow", str "glowing", str "illuminated",
         str "shadow", str "shadows", str "sunlight", str "moonlight", str "starlight",
         str "golden hour", str "blue hour", str "sunset", str "sunrise", str "dawn", str "dusk",
         str "neon", str "fluorescent", str "candlelight", str "firelight", str "torchlight"],
      patterns :=
        [patEndsWith (str "lighting"), patEndsWith (str "light"), patEndsWith (str "lit")] }),
   (str "camera",
    { keywords :=
        [str "close-up", str "closeup", str "wide shot", str "medium shot", str "full body",
         str "portrait", str "angle", str "view", str "perspective", str "lens",
         str "bokeh", str "depth of field", str "dof", str "focus", str "blur",
         str "fisheye", str "telephoto", str "macro", str "tilt-shift"],
      patterns :=
        [patEndsWith (str "shot"), patEndsWith (str "angle"),
         patEndsWith (str "view"), patDigitsMm] }),
   (str "details",
    { keywords :=
        [str "detailed", str "intricate", str "sharp", str "crisp", str "clear",
         str "4k", str "8k", str "hd", str "uhd", str "high resolution",
         str "masterpiece", str "quality", str "professional", str "award",
         str "artstation", str "behance", str "trending"],
      patterns :=
        [patEndsWith (str "detailed"), patEndsWith (str "quality"), patDigitsK] }),
   (str "mood",
    { keywords :=
        [str "serene", str "peaceful", str "calm", str "tranquil", str "joyful", str "happy",
         str "dark", str "ominous", str "foreboding", str "mysterious", str "eerie",
         str "epic", str "dramatic", str "intense", str "dynamic", str "chaotic",
         str "melancholic", str "sad", str "nostalgic", str "romantic", str "dreamy"],
      patterns :=
        [patEndsWith (str "atmosphere"), patEndsWith (str "mood"),
         patEndsWith (str "feeling"), patEndsWith (str "vibe")] })]

/-- The `rules` dict of the built-in default profile. -/
def defaultRules : CategoryRules :=
  { mandatory := [str "details"],
    never_override := [str "subject"],
    standard := [str "style", str "lighting", str "environment", str "camera"],
    optional := [str "mood", str "action"] }

/-- The `anti_pairs` dict of the built-in default profile. -/
def defaultAntiPairs : List (Str × List Str) :=
  [(str "underwater", [str "sunset", str "sunrise", str "golden hour", str "harsh sunlight", str "dusty atmosphere"]),
   (str "space station", [str "golden hour", str "forest light", str "dappled"]),
   (str "cave", [str "golden hour", str "blue hour", str "sunset backlight", str "harsh midday sun"]),
   (str "night", [str "harsh midday sun", str "bright daylight", str "golden hour"]),
   (str "graveyard", [str "joyful", str "playful", str "whimsical", str "euphoric"]),
   (str "sunny", [str "ominous", str "foreboding", str "horrific", str "terrifying"]),
   (str "pixel art", [str "ray tracing", str "photogrammetry", str "subsurface scattering", str "hyperrealistic"]),
   (str "watercolor", [str "8k", str "photogrammetry", str "hyperrealistic", str "ray tracing"]),
   (str "sketch", [str "ray tracing", str "photogrammetry", str "8k resolution"]),
   (str "moonlight", [str "harsh midday sun", str "golden hour", str "bright daylight"]),
   (str "neon", [str "candlelight", str "firelight", str "torchlight", str "medieval"])]

/-! ## Call-level stage functions (textually identical in V1 and V2) -/
/-- The per-call fingerprint
`input_hash = xxhash.xxh32(input_prompt.encode()).intdigest()`. -/
def fingerprint (prompt : Str) : Nat := xxh32 (utf8Encode prompt) 0

/-- The `classified` dict of one call. -/
def classifiedOf (profile : Profile) (prompt : Str) : List (Str × List Str) :=
  classify_all_tokens (tokenize prompt) profile.classification

/-- The gap list after `find_gaps` and `apply_category_rules`. -/
def gapsAfterRules (profile : Profile) (intensity : Str) (prompt : Str) : List Str :=
  apply_category_rules (find_gaps (classifiedOf profile prompt) profile.pools)
    profile.rules intensity

/-- The gap list after intensity thinning (`select_gaps_to_fill`). -/
def gapsFinal (seed : Nat) (profile : Profile) (intensity : Str) (prompt : Str) : List Str :=
  select_gaps_to_fill seed (fingerprint prompt) (gapsAfterRules profile intensity prompt)
    intensity

/-- The forbidden set of one call (built over all classified tokens). -/
def forbiddenOf (profile : Profile) (prompt : Str) : List Str :=
  build_forbidden_set ((classifiedOf profile prompt).map Prod.snd).flatten
    profile.anti_pairs

/-- The `components` dict: per fixed category, the user tokens joined with
", " when present, else the selected enhancement, else empty. -/
def componentsOf (classified : List (Str × List Str))
    (enhancements : List (Str × Str)) : List (Str × Str) :=
  ORDERED_CATEGORIES.map (fun category =>
    (category,
      match classified.lookup category with
      | some l =>
        if !l.isEmpty then joinWith (str ", ") l
        else
          match enhancements.lookup category with
          | some e => e
          | none => []
      | none =>
        match enhancements.lookup category with
        | some e => e
        | none => []))

end ZeroENH

namespace ZeroENH.V2

/-- The built-in `DEFAULT_PROFILE` of DJZ_ZeroENH_V2.py (engine-facing
fields; its `templates`/`pools`/`classification`/`rules`/`anti_pairs`
literals are byte-identical to V1's). -/
def DEFAULT_PROFILE : Profile :=
  { templates := defaultTemplates,
    pools := defaultPools,
    classification := defaultClassification,
    rules := defaultRules,
    anti_pairs := defaultAntiPairs }

/-- The phase-4 loop of V2's `enhance_prompt`:
`for i, gap in enumerate(sorted(gaps)): if gap in pools and pools[gap]:
enhancements[gap] = select_with_antipair_check(seed, input_hash, i + 1, ...)`.
The index advances for every gap; unguarded gaps are skipped. -/
def selectLoop (seed input_hash : Nat) (pools : List (Str × List Str))
    (forbidden : List Str) : Nat → List Str → Option (List (Str × Str))
  | _, [] => some []
  | i, gap :: rest =>
    match pools.lookup gap with
    | some pool =>
      if pool.isEmpty then selectLoop seed input_hash pools forbidden (i + 1) rest
      else
        match select_with_antipair_check seed input_hash (i + 1) pool forbidden with
        | some sel =>
          (selectLoop seed input_hash pools forbidden (i + 1) rest).map
            (fun r => (gap, sel) :: r)
        | none => none
    | none => selectLoop seed input_hash pools forbidden (i + 1) rest

/-- The `enhancements` dict of one call (`none` models an exception). -/
def enhancementsOf (seed : Nat) (profile : Profile) (intensity : Str)
    (prompt : Str) : Option (List (Str × Str)) :=
  selectLoop seed (fingerprint prompt) profile.pools (forbiddenOf profile prompt) 0
    (sortStr (gapsFinal seed profile intensity prompt))

/-- The enhanced string after phase 6 (template formatting followed by
merging of the unclassified tokens), before deduplication and length
enforcement; `none` models an exception in phases 4-5. -/
def mergedOf (seed : Nat) (profile : Profile) (intensity : Str)
    (prompt : Str) : Option Str :=
  match enhancementsOf seed profile intensity prompt with
  | none => none
  | some enhancements =>
    match select_template seed (fingerprint prompt) profile.templates with
    | none => none
    | some template =>
      let components := componentsOf (classifiedOf profile prompt) enhancements
      let enhanced := safe_format_template template components
      some (merge_with_unclassified enhanced
        (((classifiedOf profile prompt).lookup (str "unclassified")).getD []))

/-- `enhance_prompt(input_prompt, seed, profile, intensity, max_words)` of
DJZ_ZeroENH_V2.py.  `none` models a raised exception (possible only for a
profile with an empty template list). -/
def enhance_prompt (input_prompt : Str) (seed : Nat) (profile : Profile)
    (intensity : Str) (max_words : Nat) : Option Str :=
  if (pyStrip input_prompt).isEmpty then some input_prompt
  else
    (mergedOf seed profile intensity input_prompt).map
      (fun m => enforce_length_limit (deduplicate_prompt m) max_words)

end ZeroENH.V2

namespace ZeroENH.V1

/-- The `DEFAULT_PROFILE` of DJZ_ZeroENH_V1.py (engine-facing fields; the
data literals are byte-identical to V2's built-in default). -/
def DEFAULT_PROFILE : Profile :=
  { templates := defaultTemplates,
    pools := defaultPools,
    classification := defaultClassification,
    rules := defaultRules,
    anti_pairs := defaultAntiPairs }

/-- The phase-4 loop of V1's `enhance_prompt`:
`for i, gap in enumerate(sorted(gaps)): pool = profile["pools"][gap];
enhancements[gap] = select_with_antipair_check(...)`.  There is no guard:
a missing key would raise `KeyError` and an empty pool would raise inside
`select_with_antipair_check`; both are modelled by `none`. -/
def selectLoop (seed input_hash : Nat) (pools : List (Str × List Str))
    (forbidden : List Str) : Nat → List Str → Option (List (Str × Str))
  | _, [] => some []
  | i, gap :: rest =>
    match pools.lookup gap with
    | some pool =>
      match select_with_antipair_check seed input_hash (i + 1) pool forbidden with
      | some sel =>
        (selectLoop seed input_hash pools forbidden (i + 1) rest).map
          (fun r => (gap, sel) :: r)
      | none => none
    | none => none

/-- `enhance_prompt(input_prompt, seed, intensity, max_words)` of
DJZ_ZeroENH_V1.py: the same pipeline over the fixed `DEFAULT_PROFILE`. -/
def enhance_prompt (input_prompt : Str) (seed : Nat) (intensity : Str)
    (max_words : Nat) : Option Str :=
  let profile := DEFAULT_PROFILE
  if (pyStrip input_prompt).isEmpty then some input_prompt
  else
    let classified := classifiedOf profile input_prompt
    let gaps := gapsFinal seed profile intensity input_prompt
    let forbidden := forbiddenOf profile input_prompt
    match selectLoop seed (fingerprint input_prompt) profile.pools
      forbidden 0 (sortStr gaps) with
    | none => none
    | some enhancements =>
      match select_template seed (fingerprint input_prompt) profile.templates with
      | none => none
      | some template =>
        let components := componentsOf classified enhancements
        let enhanced := safe_format_template template components
        let enhanced := merge_with_unclassified enhanced
          ((classified.lookup (str "unclassified")).getD [])
        some (enforce_length_limit (deduplicate_prompt enhanced) max_words)

end ZeroENH.V1

namespace ZeroENH.V2

/-! ## Ghost instrumentation: the coordinate-hash queries of one call

Every query of `enhancement_hash` made by `enhance_prompt` belongs to one
selection decision; the following functions compute, straight from the
pipeline above, the list of (decision, coordinate) pairs actually queried
in one call. -/
/-- Identifier of one selection decision inside a single call. -/
inductive DecisionId where
  | template : DecisionId
  | primary (i : Nat) : DecisionId
  | antiAttempt (i a : Nat) : DecisionId
  | gapScore (i : Nat) : DecisionId
deriving DecidableEq, Repr

/-- The attempt indices actually queried by the conflict-resolution loop of
`select_with_antipair_check` (all attempts up to and including the first
conflict-free one, or all `max_attempts` when none is found). -/
def antiAttemptsQueried (seed input_hash conflict_coord : Nat) (pool : List Str)
    (hpool : 0 < pool.length) (forbidden : List Str) : Nat → Nat → List Nat
  | _, 0 => []
  | attempt, remaining + 1 =>
    let alt := pool.get ⟨hash_to_index
      (enhancement_hash seed input_hash (conflict_coord + attempt)) pool.length,
      Nat.mod_lt _ hpool⟩
    if conflictsWith forbidden alt then
      attempt :: antiAttemptsQueried seed input_hash conflict_coord pool hpool
        forbidden (attempt + 1) remaining
    else [attempt]

/-- The coordinate queries made while selecting for the gap with loop index
`i` (primary pick at coordinate `i + 1`; on conflict, fallback attempts at
`(i + 1) + 1000 + attempt`). -/
def decisionsForGap (seed input_hash i : Nat) (pool : List Str)
    (hpool : 0 < pool.length) (forbidden : List Str) : List (DecisionId × Nat) :=
  let selection := pool.get ⟨hash_to_index
    (enhancement_hash seed input_hash (i + 1)) pool.length, Nat.mod_lt _ hpool⟩
  (DecisionId.primary i, i + 1) ::
    (if conflictsWith forbidden selection then
      (antiAttemptsQueried seed input_hash ((i + 1) + 1000) pool hpool forbidden 0
        (min pool.length 50)).map
        (fun a => (DecisionId.antiAttempt i a, (i + 1) + 1000 + a))
    else [])

/-- The coordinate queries of the whole phase-4 loop (the loop index also
advances over gaps skipped by the guard, which make no queries). -/
def selectDecisions (seed input_hash : Nat) (pools : List (Str × List Str))
    (forbidden : List Str) : Nat → List Str → List (DecisionId × Nat)
  | _, [] => []
  | i, gap :: rest =>
    (match pools.lookup gap with
     | some pool =>
       if hpool : 0 < pool.length then
         decisionsForGap seed input_hash i pool hpool forbidden
       else []
     | none => []) ++
      selectDecisions seed input_hash pools forbidden (i + 1) rest

/-- The coordinate queries of `select_gaps_to_fill` (one score per gap of
the policy-filtered list, only when the thinning branch actually runs). -/
def scoreDecisions (gaps : List Str) (intensity : Str) : List (DecisionId × Nat) :=
  let rate := (INTENSITY_RATES.lookup intensity).getD (3, 4)
  if rate.2 ≤ rate.1 then []
  else if gaps.length ≤ max 1 (gaps.length * rate.1 / rate.2) then []
  else (List.range gaps.length).map (fun i => (DecisionId.gapScore i, 2000 + i))

/-- All (decision, coordinate) pairs queried by one call of
`enhance_prompt`, in chronological order: gap scoring, then the per-gap
selections, then template selection (reached only when phase 4 raised no
exception). -/
def decisionsOf (prompt : Str) (seed : Nat) (profile : Profile)
    (intensity : Str) : List (DecisionId × Nat) :=
  if (pyStrip prompt).isEmpty then []
  else
    scoreDecisions (gapsAfterRules profile intensity prompt) intensity ++
    selectDecisions seed (fingerprint prompt) profile.pools
      (forbiddenOf profile prompt) 0
      (sortStr (gapsFinal seed profile intensity prompt)) ++
    (match enhancementsOf seed profile intensity prompt with
     | some _ => [(DecisionId.template, 0)]
     | none => [])

end ZeroENH.V2

namespace ZeroENH

/-- Map a function over only the last element of a list. -/
def mapLastStr (f : Str → Str) : List Str → List Str
  | [] => []
  | [x] => [f x]
  | x :: y :: xs => x :: mapLastStr f (y :: xs)

/-- A word of a well-formed intermediate string: a non-empty, whitespace-free,
comma-free core, possibly carrying one trailing comma. -/
def OkWord (w : Str) : Prop :=
  ∃ u : Str, u ≠ [] ∧ (',' : Char) ∉ u ∧ (∀ c ∈ u, isWs c = false) ∧
    (w = u ∨ w = u ++ [','])

/-- The formatting invariant of claim C7 on a string: no double comma,
no leading comma, no trailing comma. -/
def OkOut (s : Str) : Prop :=
  ¬ ([',', ','] : Str) <:+: s ∧ s.head? ≠ some ',' ∧ s.getLast? ≠ some ','

/-- A well-formed comma-separated segment: non-empty, comma-free, not
ending in whitespace. -/
def SegGood (seg : Str) : Prop :=
  seg ≠ [] ∧ (',' : Char) ∉ seg ∧ ∀ h : seg ≠ [], isWs (seg.getLast h) = false

def exProfileA : Profile :=
  { templates := [placeholder (str "style")],
    pools := [(str "style", [str "big long phrase"])],
    classification := [],
    rules := { mandatory := [], never_override := [], standard := [str "style"],
               optional := [] },
    anti_pairs := [] }

def exProfileB : Profile :=
  { templates := [str "t"],
    pools := [(str "e1", [str "bad1", str "bad2"]), (str "e2", [str "bad3"])],
    classification := [],
    rules := { mandatory := [], never_override := [],
               standard := [str "e1", str "e2"], optional := [] },
    anti_pairs := [(str "trig", [str "bad"])] }

def exProfileC : Profile :=
  { templates := [str "t"],
    pools := [(str "style", []), (str "mood", [str "calm"])],
    classification := [],
    rules := { mandatory := [], never_override := [],
               standard := [str "style", str "mood"], optional := [] },
    anti_pairs := [] }

/-- Arguments of one call of the V2 entry point. -/
structure CallArgs where
  prompt : Str
  seed : Nat
  profile : Profile
  intensity : Str
  max_words : Nat

/-- One call of the V2 entry point as a pure function of its arguments:
the Python method reads no state outside its parameters and module-level
constants and writes none, so a call history is its argument list mapped
through this function. -/
def runCall (c : CallArgs) : Option Str :=
  V2.enhance_prompt c.prompt c.seed c.profile c.intensity c.max_words

end ZeroENH


/-! # Theorems -/

namespace ZeroENH

/-- The fuel of `wordsF` is irrelevant from the string length upward. -/
theorem wordsF_irrel : ∀ (f1 f2 : Nat) (s : Str), s.length ≤ f1 → s.length ≤ f2 →
    wordsF f1 s = wordsF f2 s := by
  intro f1
  induction f1 with
  | zero =>
    intro f2 s h1 _
    have hs : s = [] := List.length_eq_zero.mp (Nat.le_zero.mp h1)
    subst hs
    cases f2 with
    | zero => rfl
    | succ f2 => rfl
  | succ f1 ih =>
    intro f2 s h1 h2
    match hd : s.dropWhile isWs with
    | [] =>
      cases f2 with
      | zero =>
        have hs : s = [] := List.length_eq_zero.mp (Nat.le_zero.mp h2)
        subst hs
        rfl
      | succ f2 => rw [wordsF, wordsF, hd]
    | c :: t =>
      have hlen : (c :: t).length ≤ s.length := by
        rw [← hd]; exact (List.dropWhile_suffix isWs).sublist.length_le
      simp only [List.length_cons] at hlen
      have hlen2 : (t.dropWhile (fun d => !isWs d)).length ≤ t.length :=
        (List.dropWhile_suffix _).sublist.length_le
      cases f2 with
      | zero => omega
      | succ f2 =>
        rw [wordsF, wordsF, hd]
        simp only
        rw [ih f2 (t.dropWhile (fun d => !isWs d)) (by omega) (by omega)]

/-- The single unfolding equation of `words`. -/
theorem words_eq (s : Str) :
    words s =
      match s.dropWhile isWs with
      | [] => []
      | c :: t =>
        (c :: t.takeWhile (fun d => !isWs d)) :: words (t.dropWhile (fun d => !isWs d)) := by
  have h1 : words s = wordsF (s.length + 1) s := by
    unfold words
    exact wordsF_irrel s.length (s.length + 1) s le_rfl (by omega)
  rw [h1, wordsF]
  match hd : s.dropWhile isWs with
  | [] => rfl
  | c :: t =>
    have hlen : (c :: t).length ≤ s.length := by
      rw [← hd]; exact (List.dropWhile_suffix isWs).sublist.length_le
    simp only [List.length_cons] at hlen
    have hlen2 : (t.dropWhile (fun d => !isWs d)).length ≤ t.length :=
      (List.dropWhile_suffix _).sublist.length_le
    simp only
    unfold words
    rw [wordsF_irrel s.length (t.dropWhile (fun d => !isWs d)).length _ (by omega) le_rfl]

/-- The fuel of `replaceAllF` is irrelevant from the string length upward. -/
theorem replaceAllF_irrel (pat rep : Str) : ∀ (f1 f2 : Nat) (s : Str),
    s.length ≤ f1 → s.length ≤ f2 → replaceAllF pat rep f1 s = replaceAllF pat rep f2 s := by
  intro f1
  induction f1 with
  | zero =>
    intro f2 s h1 _
    have hs : s = [] := List.length_eq_zero.mp (Nat.le_zero.mp h1)
    subst hs
    cases f2 <;> rfl
  | succ f1 ih =>
    intro f2 s h1 h2
    match s with
    | [] =>
      cases f2 with
      | zero => rfl
      | succ f2 => rfl
    | c :: t =>
      simp only [List.length_cons] at h1 h2
      cases f2 with
      | zero => omega
      | succ f2 =>
        rw [replaceAllF, replaceAllF]
        by_cases hemp : pat.isEmpty = true
        · rw [if_pos hemp, if_pos hemp]
        · rw [if_neg hemp, if_neg hemp]
          by_cases hpre : pat.isPrefixOf (c :: t) = true
          · have hp1 : 1 ≤ pat.length := by
              cases pat with
              | nil => simp [List.isEmpty] at hemp
              | cons a l => simp
            rw [if_pos hpre, if_pos hpre]
            rw [ih f2 ((c :: t).drop pat.length)
              (by simp only [List.length_drop, List.length_cons]; omega)
              (by simp only [List.length_drop, List.length_cons]; omega)]
          · rw [if_neg hpre, if_neg hpre]
            rw [ih f2 t (by omega) (by omega)]

/-- The unfolding equations of `replaceAll`. -/
theorem replaceAll_nil (pat rep : Str) : replaceAll pat rep [] = [] := rfl

/-- Unfolding of `replaceAll` on a non-empty string. -/
theorem replaceAll_cons (pat rep : Str) (c : Char) (t : Str) :
    replaceAll pat rep (c :: t) =
      if pat.isEmpty then c :: t
      else if pat.isPrefixOf (c :: t) then
        rep ++ replaceAll pat rep ((c :: t).drop pat.length)
      else c :: replaceAll pat rep t := by
  unfold replaceAll
  simp only [List.length_cons]
  rw [replaceAllF]
  by_cases hemp : pat.isEmpty = true
  · rw [if_pos hemp, if_pos hemp]
  · rw [if_neg hemp, if_neg hemp]
    by_cases hpre : pat.isPrefixOf (c :: t) = true
    · have hp1 : 1 ≤ pat.length := by
        cases pat with
        | nil => simp [List.isEmpty] at hemp
        | cons a l => simp
      rw [if_pos hpre, if_pos hpre]
      rw [replaceAllF_irrel pat rep t.length ((c :: t).drop pat.length).length _
        (by simp only [List.length_drop, List.length_cons]; omega) le_rfl]
    · rw [if_neg hpre, if_neg hpre]

/-- Replacement with a no-longer replacement never lengthens the string. -/
theorem replaceAll_length_le (pat rep : Str) (hlen : rep.length ≤ pat.length) :
    ∀ s : Str, (replaceAll pat rep s).length ≤ s.length := by
  suffices H : ∀ (n : Nat) (s : Str), s.length ≤ n →
      (replaceAll pat rep s).length ≤ s.length from fun s => H s.length s le_rfl
  intro n
  induction n with
  | zero =>
    intro s hs
    have h0 : s = [] := List.length_eq_zero.mp (Nat.le_zero.mp hs)
    subst h0
    simp [replaceAll_nil]
  | succ n ih =>
    intro s hs
    match s with
    | [] => simp [replaceAll_nil]
    | c :: t =>
      simp only [List.length_cons] at hs
      rw [replaceAll_cons]
      by_cases hemp : pat.isEmpty = true
      · rw [if_pos hemp]
      · rw [if_neg hemp]
        have hp1 : 1 ≤ pat.length := by
          cases pat with
          | nil => simp [List.isEmpty] at hemp
          | cons a l => simp
        by_cases hpre : pat.isPrefixOf (c :: t) = true
        · rw [if_pos hpre]
          have hle : pat.length ≤ t.length + 1 := by
            have h3 := (List.isPrefixOf_iff_prefix.mp hpre).length_le
            simpa using h3
          have hrec := ih ((c :: t).drop pat.length)
            (by simp only [List.length_drop, List.length_cons]; omega)
          simp only [List.length_append, List.length_drop, List.length_cons] at hrec ⊢
          omega
        · rw [if_neg hpre]
          have hrec := ih t (by omega)
          simp only [List.length_cons]
          omega

/-- If the pattern does not occur, replacement is the identity. -/
theorem replaceAll_of_not_contains (pat rep : Str) :
    ∀ s : Str, containsSub pat s = false → replaceAll pat rep s = s := by
  intro s
  induction s with
  | nil => intro _; simp [replaceAll_nil]
  | cons c t ih =>
    intro hc
    rw [containsSub] at hc
    simp only [Bool.or_eq_false_iff] at hc
    rw [replaceAll_cons]
    by_cases hemp : pat.isEmpty = true
    · rw [if_pos hemp]
    · rw [if_neg hemp, if_neg (Bool.eq_false_iff.mp hc.1)]
      rw [ih hc.2]

/-- If the pattern occurs and the replacement is strictly shorter, the
replacement strictly shortens the string. -/
theorem replaceAll_length_lt (pat rep : Str) (hne : pat ≠ [])
    (hlen : rep.length < pat.length) :
    ∀ s : Str, containsSub pat s = true → (replaceAll pat rep s).length < s.length := by
  have hemp : pat.isEmpty = false := by
    cases pat with
    | nil => exact absurd rfl hne
    | cons a l => rfl
  have hp1 : 1 ≤ pat.length := by
    cases pat with
    | nil => exact absurd rfl hne
    | cons a l => simp
  intro s
  induction s with
  | nil =>
    intro hc
    rw [containsSub] at hc
    rw [hemp] at hc
    exact absurd hc (by simp)
  | cons c t ih =>
    intro hc
    rw [containsSub] at hc
    rw [replaceAll_cons]
    rw [if_neg (by rw [hemp]; simp)]
    by_cases hpre : pat.isPrefixOf (c :: t) = true
    · rw [if_pos hpre]
      have hle : pat.length ≤ t.length + 1 := by
        have h3 := (List.isPrefixOf_iff_prefix.mp hpre).length_le
        simpa using h3
      have hrec : (replaceAll pat rep ((c :: t).drop pat.length)).length ≤
          t.length + 1 - pat.length := by
        have h2 := replaceAll_length_le pat rep (Nat.le_of_lt hlen) ((c :: t).drop pat.length)
        simpa using h2
      simp only [List.length_append, List.length_cons]
      omega
    · have hpre2 : List.isPrefixOf pat (c :: t) = false := Bool.eq_false_iff.mpr hpre
      rw [hpre2] at hc
      simp only [Bool.false_or] at hc
      rw [if_neg hpre]
      simp only [List.length_cons]
      exact Nat.succ_lt_succ (ih hc)

/-- One loop body strictly shortens the string while the loop condition
holds. -/
theorem cleanupStep_length_lt (s : Str)
    (h : (containsSub (str ",,") s || containsSub (str ", ,") s) = true) :
    (cleanupStep s).length < s.length := by
  rcases Bool.or_eq_true_iff.mp h with h1 | h1
  · calc (cleanupStep s).length
        ≤ (replaceAll (str ",,") (str ",") s).length :=
          replaceAll_length_le _ _ (by simp [str]) _
      _ < s.length := replaceAll_length_lt _ _ (by simp [str]) (by simp [str]) s h1
  · by_cases h2 : containsSub (str ",,") s = true
    · calc (cleanupStep s).length
          ≤ (replaceAll (str ",,") (str ",") s).length :=
            replaceAll_length_le _ _ (by simp [str]) _
        _ < s.length := replaceAll_length_lt _ _ (by simp [str]) (by simp [str]) s h2
    · rw [cleanupStep, replaceAll_of_not_contains _ _ s (Bool.eq_false_iff.mpr h2)]
      exact replaceAll_length_lt _ _ (by simp [str]) (by simp [str]) s h1

/-- The fuel of `cleanupLoopF` is irrelevant beyond the string length. -/
theorem cleanupLoopF_irrel : ∀ (f1 f2 : Nat) (s : Str), s.length < f1 →
    s.length < f2 → cleanupLoopF f1 s = cleanupLoopF f2 s := by
  intro f1
  induction f1 with
  | zero => intro f2 s h1 _; omega
  | succ f1 ih =>
    intro f2 s h1 h2
    cases f2 with
    | zero => omega
    | succ f2 =>
      simp only [cleanupLoopF]
      by_cases hc : (containsSub (str ",,") s || containsSub (str ", ,") s) = true
      · rw [if_pos hc, if_pos hc]
        have hlt := cleanupStep_length_lt s hc
        exact ih f2 (cleanupStep s) (by omega) (by omega)
      · rw [if_neg hc, if_neg hc]

/-- The unfolding equation of `cleanupLoop`: it is the Python `while` loop. -/
theorem cleanupLoop_eq (s : Str) :
    cleanupLoop s =
      if containsSub (str ",,") s || containsSub (str ", ,") s then
        cleanupLoop (cleanupStep s)
      else s := by
  rw [cleanupLoop, cleanupLoopF]
  by_cases hc : (containsSub (str ",,") s || containsSub (str ", ,") s) = true
  · rw [if_pos hc, if_pos hc]
    have hlt := cleanupStep_length_lt s hc
    rw [cleanupLoop]
    exact cleanupLoopF_irrel _ _ _ (by omega) (by omega)
  · rw [if_neg hc, if_neg hc]

/-- Head of a delimiter match is a whitespace character. -/
theorem delimAt_head_ws {c : Char} {t : Str} (h : delimAt (c :: t) = true) :
    isWs c = true := by
  by_cases hw : isWs c = true
  · exact hw
  · rw [delimAt] at h
    simp only [hw] at h
    simp at h

/-! ## Structural lemmas about `words` -/
/-- The head left standing by `dropWhile` fails the predicate. -/
theorem dropWhile_head_not {p : Char → Bool} {l : Str} {c : Char} {t : Str}
    (hd : l.dropWhile p = c :: t) : p c = false := by
  have hne : l.dropWhile p ≠ [] := by rw [hd]; simp
  have h4 := List.head_dropWhile_not p l hne
  have h5 : (l.dropWhile p).head hne = c := by
    rw [← Option.some_inj, ← List.head?_eq_head hne, hd]
    rfl
  rwa [h5] at h4

/-- Splitting the empty string gives no words. -/
theorem words_nil : words [] = [] := rfl

/-- A leading whitespace character does not change the word split. -/
theorem words_cons_of_ws {c : Char} (t : Str) (hw : isWs c = true) :
    words (c :: t) = words t := by
  rw [words_eq (c :: t), List.dropWhile_cons_of_pos hw, words_eq t]

/-- A leading non-whitespace character starts the first word. -/
theorem words_cons_of_not_ws {c : Char} (t : Str) (hw : isWs c = false) :
    words (c :: t) =
      (c :: t.takeWhile (fun d => !isWs d)) :: words (t.dropWhile (fun d => !isWs d)) := by
  rw [words_eq (c :: t), List.dropWhile_cons_of_neg (by simp [hw])]

/-- Every word is non-empty and free of whitespace characters. -/
theorem words_good : ∀ (s : Str), ∀ w ∈ words s, w ≠ [] ∧ ∀ c ∈ w, isWs c = false := by
  suffices H : ∀ (n : Nat) (s : Str), s.length ≤ n →
      ∀ w ∈ words s, w ≠ [] ∧ ∀ c ∈ w, isWs c = false from
    fun s => H s.length s le_rfl
  intro n
  induction n with
  | zero =>
    intro s hs
    have h0 : s = [] := List.length_eq_zero.mp (Nat.le_zero.mp hs)
    subst h0
    intro w hw
    simp [words_nil] at hw
  | succ n ih =>
    intro s hs w hw
    rw [words_eq s] at hw
    match hd : s.dropWhile isWs with
    | [] => rw [hd] at hw; simp at hw
    | c :: t =>
      rw [hd] at hw
      simp only [List.mem_cons] at hw
      have hlen : (c :: t).length ≤ s.length := by
        rw [← hd]; exact (List.dropWhile_suffix isWs).sublist.length_le
      simp only [List.length_cons] at hlen
      rcases hw with hw | hw
      · subst hw
        refine ⟨by simp, ?_⟩
        intro d hdmem
        simp only [List.mem_cons] at hdmem
        rcases hdmem with hdmem | hdmem
        · subst hdmem
          exact dropWhile_head_not hd
        · have := List.mem_takeWhile_imp hdmem
          simpa using this
      · have hlen2 : (t.dropWhile (fun d => !isWs d)).length ≤ t.length :=
          (List.dropWhile_suffix _).sublist.length_le
        exact ih (t.dropWhile (fun d => !isWs d)) (by omega) w hw

/-- Every character of every word comes from the split string. -/
theorem words_chars : ∀ (s : Str), ∀ w ∈ words s, ∀ c ∈ w, c ∈ s := by
  suffices H : ∀ (n : Nat) (s : Str), s.length ≤ n →
      ∀ w ∈ words s, ∀ c ∈ w, c ∈ s from fun s => H s.length s le_rfl
  intro n
  induction n with
  | zero =>
    intro s hs
    have h0 : s = [] := List.length_eq_zero.mp (Nat.le_zero.mp hs)
    subst h0
    intro w hw
    simp [words_nil] at hw
  | succ n ih =>
    intro s hs w hw d hdw
    rw [words_eq s] at hw
    match hd : s.dropWhile isWs with
    | [] => rw [hd] at hw; simp at hw
    | c :: t =>
      rw [hd] at hw
      simp only [List.mem_cons] at hw
      have hsub : ∀ x, x ∈ c :: t → x ∈ s := by
        intro x hx
        exact (List.dropWhile_suffix isWs).subset (hd ▸ hx)
      have hlen : (c :: t).length ≤ s.length := by
        rw [← hd]; exact (List.dropWhile_suffix isWs).sublist.length_le
      simp only [List.length_cons] at hlen
      rcases hw with hw | hw
      · subst hw
        simp only [List.mem_cons] at hdw
        rcases hdw with hdw | hdw
        · subst hdw; exact hsub d (by simp)
        · have : d ∈ t := ( List.takeWhile_prefix _).subset hdw
          exact hsub d (by simp [this])
      · have hlen2 : (t.dropWhile (fun d => !isWs d)).length ≤ t.length :=
          (List.dropWhile_suffix _).sublist.length_le
        have hdin : d ∈ t.dropWhile (fun d => !isWs d) :=
          ih (t.dropWhile (fun d => !isWs d)) (by omega) w hw d hdw
        have : d ∈ t := (List.dropWhile_suffix _).subset hdin
        exact hsub d (by simp [this])

/-- A string containing a non-whitespace character splits into at least one
word. -/
theorem words_ne_nil (s : Str) (h : ∃ c ∈ s, isWs c = false) : words s ≠ [] := by
  rw [words_eq s]
  match hd : s.dropWhile isWs with
  | [] =>
    exfalso
    rcases h with ⟨c, hc, hcw⟩
    have := List.dropWhile_eq_nil_iff.mp hd
    rw [this c hc] at hcw
    simp at hcw
  | c :: t => simp

/-- A single space splits the word computation cleanly. -/
theorem words_append_space : ∀ (A r : Str), words (A ++ ' ' :: r) = words A ++ words r := by
  suffices H : ∀ (n : Nat) (A : Str), A.length ≤ n →
      ∀ r, words (A ++ ' ' :: r) = words A ++ words r by
    intro A r; exact H A.length A le_rfl r
  intro n
  induction n with
  | zero =>
    intro A hA r
    have h0 : A = [] := List.length_eq_zero.mp (Nat.le_zero.mp hA)
    subst h0
    rw [List.nil_append, words_nil, List.nil_append, words_cons_of_ws r (by simp [isWs])]
  | succ n ih =>
    intro A hA r
    match A with
    | [] =>
      rw [List.nil_append, words_nil, List.nil_append, words_cons_of_ws r (by simp [isWs])]
    | c :: A1 =>
      simp only [List.length_cons] at hA
      by_cases hw : isWs c = true
      · rw [List.cons_append, words_cons_of_ws _ hw, words_cons_of_ws _ hw]
        exact ih A1 (by omega) r
      · have hw2 : isWs c = false := Bool.eq_false_iff.mpr hw
        rw [List.cons_append, words_cons_of_not_ws _ hw2, words_cons_of_not_ws _ hw2]
        by_cases hall : ∀ a ∈ A1, (fun d => !isWs d) a = true
        · rw [List.takeWhile_append_of_pos hall, List.dropWhile_append_of_pos hall]
          rw [List.takeWhile_cons_of_neg (by simp [isWs]), List.dropWhile_cons_of_neg (by simp [isWs])]
          rw [List.takeWhile_eq_self_iff.mpr hall, List.dropWhile_eq_nil_iff.mpr hall]
          rw [words_cons_of_ws r (by simp [isWs]), words_nil]
          simp
        · have htk : (A1.takeWhile (fun d => !isWs d)).length ≠ A1.length := by
            intro heq
            have heq2 : A1.takeWhile (fun d => !isWs d) = A1 :=
              ( List.takeWhile_prefix _).eq_of_length heq
            refine hall (fun a ha => ?_)
            have ha2 : a ∈ List.takeWhile (fun d => !isWs d) A1 := by
              rw [heq2]; exact ha
            have ha3 := List.mem_takeWhile_imp ha2
            exact ha3
          have hdw : ¬(A1.dropWhile (fun d => !isWs d)).isEmpty = true := by
            intro hemp
            rw [List.isEmpty_iff] at hemp
            exact hall (List.dropWhile_eq_nil_iff.mp hemp)
          rw [List.takeWhile_append, if_neg htk, List.dropWhile_append, if_neg hdw]
          have hlen2 : (A1.dropWhile (fun d => !isWs d)).length ≤ A1.length :=
            (List.dropWhile_suffix _).sublist.length_le
          rw [ih (A1.dropWhile (fun d => !isWs d)) (by omega) r, List.cons_append]

/-- A non-empty whitespace-free string is a single word. -/
theorem words_singleton (w : Str) (hne : w ≠ []) (hgood : ∀ c ∈ w, isWs c = false) :
    words w = [w] := by
  match w with
  | c :: t =>
    have hw : isWs c = false := hgood c (by simp)
    have hall : ∀ a ∈ t, (fun d => !isWs d) a = true := by
      intro a ha
      simp [hgood a (by simp [ha])]
    rw [words_cons_of_not_ws t hw, List.takeWhile_eq_self_iff.mpr hall,
      List.dropWhile_eq_nil_iff.mpr hall, words_nil]

/-- Joining with a single blank then resplitting recovers a list of
non-empty whitespace-free words. -/
theorem words_joinWith (l : List Str)
    (hgood : ∀ w ∈ l, w ≠ [] ∧ ∀ c ∈ w, isWs c = false) :
    words (joinWith [' '] l) = l := by
  induction l with
  | nil => rw [joinWith, words_nil]
  | cons x xs ih =>
    match xs with
    | [] =>
      rw [joinWith]
      exact words_singleton x (hgood x (by simp)).1 (hgood x (by simp)).2
    | y :: ys =>
      rw [joinWith]
      have hx := hgood x (by simp)
      have hxs : ∀ w ∈ y :: ys, w ≠ [] ∧ ∀ c ∈ w, isWs c = false := by
        intro w hw
        exact hgood w (by simp [hw])
      rw [List.append_assoc, List.singleton_append, words_append_space,
        words_singleton x hx.1 hx.2, ih hxs]
      rfl

/-- Members of `mapLastStr f l` are members of `l` or images of members. -/
theorem mem_mapLastStr (f : Str → Str) :
    ∀ (l : List Str) (w : Str), w ∈ mapLastStr f l → w ∈ l ∨ ∃ u ∈ l, w = f u := by
  intro l
  induction l with
  | nil => intro w hw; simp [mapLastStr] at hw
  | cons x xs ih =>
    intro w hw
    match xs with
    | [] =>
      rw [mapLastStr] at hw
      simp only [List.mem_singleton] at hw
      exact Or.inr ⟨x, by simp, hw⟩
    | y :: ys =>
      rw [mapLastStr] at hw
      simp only [List.mem_cons] at hw
      rcases hw with hw | hw
      · exact Or.inl (by simp [hw])
      · rcases ih w hw with h | ⟨u, hu, hwu⟩
        · exact Or.inl (by simp [h])
        · exact Or.inr ⟨u, by simp [hu], hwu⟩

/-- Appending one trailing comma extends the last word (the comma is not
whitespace, and the string ends with a non-whitespace character). -/
theorem words_append_comma : ∀ (x : Str), x ≠ [] →
    (∀ hx : x ≠ [], isWs (x.getLast hx) = false) →
    words (x ++ [',']) = mapLastStr (fun u => u ++ [',']) (words x) := by
  suffices H : ∀ (n : Nat) (x : Str), x.length ≤ n → x ≠ [] →
      (∀ hx : x ≠ [], isWs (x.getLast hx) = false) →
      words (x ++ [',']) = mapLastStr (fun u => u ++ [',']) (words x) by
    intro x hne hlast; exact H x.length x le_rfl hne hlast
  intro n
  induction n with
  | zero =>
    intro x hx hne _
    have h0 : x = [] := List.length_eq_zero.mp (Nat.le_zero.mp hx)
    exact absurd h0 hne
  | succ n ih =>
    intro x hx hne hlast
    match x with
    | c :: x1 =>
      simp only [List.length_cons] at hx
      by_cases hw : isWs c = true
      · have hx1ne : x1 ≠ [] := by
          intro h0
          subst h0
          have := hlast (by simp)
          simp only [List.getLast_singleton] at this
          rw [hw] at this
          simp at this
        have hlast1 : ∀ hx1 : x1 ≠ [], isWs (x1.getLast hx1) = false := by
          intro hx1
          have := hlast (by simp)
          rwa [List.getLast_cons hx1] at this
        rw [List.cons_append, words_cons_of_ws _ hw, words_cons_of_ws _ hw]
        exact ih x1 (by omega) hx1ne hlast1
      · have hw2 : isWs c = false := Bool.eq_false_iff.mpr hw
        rw [List.cons_append, words_cons_of_not_ws _ hw2, words_cons_of_not_ws _ hw2]
        by_cases hall : ∀ a ∈ x1, (fun d => !isWs d) a = true
        · rw [List.takeWhile_append_of_pos hall, List.dropWhile_append_of_pos hall]
          have h6 : List.takeWhile (fun d => !isWs d) [','] = [','] := by decide
          have h7 : List.dropWhile (fun d => !isWs d) [','] = [] := by decide
          rw [h6, h7, List.takeWhile_eq_self_iff.mpr hall,
            List.dropWhile_eq_nil_iff.mpr hall, words_nil, mapLastStr]
          simp
        · have htk : (x1.takeWhile (fun d => !isWs d)).length ≠ x1.length := by
            intro heq
            have heq2 : x1.takeWhile (fun d => !isWs d) = x1 :=
              ( List.takeWhile_prefix _).eq_of_length heq
            refine hall (fun a ha => ?_)
            have ha2 : a ∈ List.takeWhile (fun d => !isWs d) x1 := by
              rw [heq2]; exact ha
            have ha3 := List.mem_takeWhile_imp ha2
            exact ha3
          have hdw : ¬(x1.dropWhile (fun d => !isWs d)).isEmpty = true := by
            intro hemp
            rw [List.isEmpty_iff] at hemp
            exact hall (List.dropWhile_eq_nil_iff.mp hemp)
          rw [List.takeWhile_append, if_neg htk, List.dropWhile_append, if_neg hdw]
          have hlen2 : (x1.dropWhile (fun d => !isWs d)).length ≤ x1.length :=
            (List.dropWhile_suffix _).sublist.length_le
          have hdne : x1.dropWhile (fun d => !isWs d) ≠ [] := by
            intro h0
            rw [h0] at hdw
            simp at hdw
          have hx1ne : x1 ≠ [] := by
            intro h0
            subst h0
            simp at hdne
          have hlastd : ∀ hd : x1.dropWhile (fun d => !isWs d) ≠ [],
              isWs ((x1.dropWhile (fun d => !isWs d)).getLast hd) = false := by
            intro hd
            have h5 : (x1.dropWhile (fun d => !isWs d)).getLast hd = x1.getLast hx1ne := by
              exact (List.dropWhile_suffix _).getLast ..
            rw [h5]
            have := hlast (by simp)
            rwa [List.getLast_cons hx1ne] at this
          rw [ih (x1.dropWhile (fun d => !isWs d)) (by omega) hdne hlastd]
          have hwne : words (x1.dropWhile (fun d => !isWs d)) ≠ [] := by
            refine words_ne_nil _ ⟨(x1.dropWhile (fun d => !isWs d)).getLast hdne, ?_, hlastd hdne⟩
            exact List.getLast_mem hdne
          match hwd : words (x1.dropWhile (fun d => !isWs d)) with
          | [] => exact absurd hwd hwne
          | z :: zs => rw [mapLastStr]

/-! ## joinWith decomposition and right-strip structure -/
theorem joinWith_append_singleton (sep : Str) : ∀ (l : List Str) (w : Str),
    joinWith sep (l ++ [w]) = if l.isEmpty then w else joinWith sep l ++ sep ++ w := by
  intro l
  induction l with
  | nil => intro w; rfl
  | cons x xs ih =>
    intro w
    cases xs with
    | nil => rfl
    | cons y ys =>
      have h1 : joinWith sep ((x :: y :: ys) ++ [w])
          = x ++ sep ++ joinWith sep ((y :: ys) ++ [w]) := rfl
      rw [h1, ih w]
      have h2 : ((y :: ys).isEmpty) = false := rfl
      have h3 : ((x :: y :: ys).isEmpty) = false := rfl
      rw [h2, h3]
      simp only [Bool.false_eq_true, if_false]
      have h4 : joinWith sep (x :: y :: ys) = x ++ sep ++ joinWith sep (y :: ys) := rfl
      rw [h4]
      simp [List.append_assoc]

theorem rdropWhile_append (p : Char → Bool) (a b : Str) :
    (a ++ b).rdropWhile p =
      if (b.rdropWhile p).isEmpty then a.rdropWhile p else a ++ b.rdropWhile p := by
  have key : (a ++ b).rdropWhile p
      = ((b.reverse ++ a.reverse).dropWhile p).reverse := by
    rw [List.rdropWhile, List.reverse_append]
  rw [key, List.dropWhile_append]
  have hiff : (List.dropWhile p b.reverse).isEmpty = (b.rdropWhile p).isEmpty := by
    rw [List.rdropWhile]
    cases hq : List.dropWhile p b.reverse with
    | nil => rfl
    | cons z zs => simp
  by_cases hb : (b.rdropWhile p).isEmpty = true
  · rw [if_pos (by rw [hiff]; exact hb), if_pos hb, List.rdropWhile]
  · rw [if_neg (by rw [hiff]; exact hb), if_neg hb, List.reverse_append,
      List.reverse_reverse, List.rdropWhile]

theorem rstripWs_append_good (X w : Str) (hne : w ≠ [])
    (hg : ∀ c ∈ w, isWs c = false) : rstripWs (X ++ w) = X ++ w := by
  have hw : w.rdropWhile isWs = w :=
    List.rdropWhile_eq_self_iff.mpr (fun hl => by
      have := hg (w.getLast hl) (List.getLast_mem hl)
      simp [this])
  rw [rstripWs, rdropWhile_append, hw]
  exact if_neg (fun h => hne (List.isEmpty_iff.mp h))

theorem rstripComma_append_good (X u : Str) (hne : u ≠ [])
    (hg : (',' : Char) ∉ u) : rstripComma (X ++ u) = X ++ u := by
  have hw : u.rdropWhile (fun c => c == ',') = u :=
    List.rdropWhile_eq_self_iff.mpr (fun hl hp => by
      have hm : u.getLast hl ∈ u := List.getLast_mem hl
      have : u.getLast hl = ',' := by
        have := of_decide_eq_true hp
        exact this
      rw [this] at hm
      exact hg hm)
  rw [rstripComma, rdropWhile_append, hw]
  exact if_neg (fun h => hne (List.isEmpty_iff.mp h))

/-- Right-stripping whitespace fixes any whitespace-free string. -/
theorem rstripWs_of_good (s : Str) (hg : ∀ c ∈ s, isWs c = false) :
    rstripWs s = s :=
  List.rdropWhile_eq_self_iff.mpr (fun hl => by
    simp [hg (s.getLast hl) (List.getLast_mem hl)])

/-- Right-stripping commas preserves whitespace-freeness. -/
theorem rstripComma_good (w : Str) (hg : ∀ c ∈ w, isWs c = false) :
    ∀ c ∈ rstripComma w, isWs c = false := by
  intro c hc
  exact hg c (( List.rdropWhile_prefix _ _).subset hc)

/-- Right-stripping whitespace fixes a blank-join of good words. -/
theorem rstripWs_joinWith (l : List Str)
    (hgood : ∀ w ∈ l, w ≠ [] ∧ ∀ c ∈ w, isWs c = false) :
    rstripWs (joinWith [' '] l) = joinWith [' '] l := by
  rcases List.eq_nil_or_concat l with h | ⟨l₀, w, h⟩
  · subst h; rfl
  · rw [List.concat_eq_append] at h
    subst h
    have hw := hgood w (by simp)
    rw [joinWith_append_singleton]
    by_cases h0 : (l₀.isEmpty) = true
    · rw [if_pos h0]
      have h1 : rstripWs ([] ++ w) = [] ++ w := rstripWs_append_good [] w hw.1 hw.2
      simpa using h1
    · rw [if_neg h0]
      exact rstripWs_append_good (joinWith [' '] l₀ ++ [' ']) w hw.1 hw.2

/-- Core word-budget fact: `enforce_length_limit` always returns a string
of at most `max_words` whitespace-words when its input already obeys the
budget or gets truncated. -/
theorem countWords_enforce_le (p : Str) (k : Nat) :
    countWords (enforce_length_limit p k) ≤ k := by
  simp only [enforce_length_limit]
  by_cases hle : (words p).length ≤ k
  · rw [if_pos hle]
    exact hle
  · rw [if_neg hle]
    cases k with
    | zero =>
      simp only [List.take_zero]
      exact Nat.le_refl 0
    | succ k1 =>
      have hlen : ((words p).take (k1+1)).length = k1 + 1 := by
        rw [List.length_take]
        omega
      rcases List.eq_nil_or_concat ((words p).take (k1+1)) with hnil | ⟨l₀, w, hsplit⟩
      · rw [hnil] at hlen
        simp at hlen
      · rw [List.concat_eq_append] at hsplit
        have hsub : ∀ v ∈ (words p).take (k1+1), v ∈ words p :=
          fun v hv => List.take_subset _ _ hv
        have hw : w ≠ [] ∧ ∀ c ∈ w, isWs c = false :=
          words_good p w (hsub w (by rw [hsplit]; simp))
        have hl₀ : ∀ v ∈ l₀, v ≠ [] ∧ ∀ c ∈ v, isWs c = false := by
          intro v hv
          exact words_good p v (hsub v (by rw [hsplit]; simp [hv]))
        have hlen0 : l₀.length = k1 := by
          rw [hsplit] at hlen
          simp at hlen
          omega
        rw [hsplit, joinWith_append_singleton]
        by_cases h0 : (l₀.isEmpty) = true
        · rw [if_pos h0]
          by_cases hu : (rstripComma w).isEmpty = true
          · rw [List.isEmpty_iff] at hu
            rw [hu]
            exact Nat.zero_le _
          · rw [List.isEmpty_iff] at hu
            have hgu : ∀ c ∈ rstripComma w, isWs c = false := rstripComma_good w hw.2
            rw [rstripWs_of_good _ hgu]
            simp only [countWords, words_singleton _ hu hgu]
            exact Nat.succ_le_succ (Nat.zero_le _)
        · rw [if_neg h0, rstripComma, rdropWhile_append]
          by_cases hu : (w.rdropWhile (fun c => c == ',')).isEmpty = true
          · rw [if_pos hu]
            have hsp : ([' '] : Str).rdropWhile (fun c => c == ',') = [' '] := by decide
            rw [rdropWhile_append, hsp, if_neg (by decide)]
            have hws : rstripWs (joinWith [' '] l₀ ++ [' ']) = rstripWs (joinWith [' '] l₀) := by
              rw [rstripWs, rdropWhile_append]
              have h2 : ([' '] : Str).rdropWhile isWs = [] := by decide
              rw [h2, if_pos (show ([] : Str).isEmpty = true from rfl), rstripWs]
            rw [hws, rstripWs_joinWith l₀ hl₀]
            simp only [countWords, words_joinWith l₀ hl₀]
            omega
          · rw [if_neg hu]
            have hune : w.rdropWhile (fun c => c == ',') ≠ [] :=
              fun h => hu (by rw [h]; rfl)
            have hgu : ∀ c ∈ w.rdropWhile (fun c => c == ','), isWs c = false :=
              fun c hc => hw.2 c (( List.rdropWhile_prefix _ _).subset hc)
            rw [rstripWs_append_good _ _ hune hgu, List.append_assoc, List.singleton_append]
            simp only [countWords]
            rw [words_append_space, words_joinWith l₀ hl₀,
              words_singleton _ hune hgu]
            simp
            omega

/-! ## Comma-structure toolbox for the formatting invariant -/
/-- A one-element list is a prefix exactly when the head matches. -/
theorem singleton_prefix_head (y : Char) (l : Str) : [y] <+: l ↔ l.head? = some y := by
  cases l with
  | nil => simp
  | cons d t =>
    rw [List.cons_prefix_cons]
    simp only [List.head?_cons, Option.some.injEq]
    constructor
    · rintro ⟨h, _⟩
      exact h.symm
    · intro h
      exact ⟨h.symm, List.nil_prefix⟩

/-- Where a two-character pattern can sit inside an append: wholly in the
left part, wholly in the right part, or straddling the boundary. -/
theorem pair_infix_append {x y : Char} : ∀ (a b : Str),
    ([x, y] : Str) <:+: a ++ b →
    ([x, y] : Str) <:+: a ∨ ([x, y] : Str) <:+: b ∨
      (a.getLast? = some x ∧ b.head? = some y) := by
  intro a
  induction a with
  | nil =>
    intro b h
    exact Or.inr (Or.inl (by simpa using h))
  | cons c t ih =>
    intro b h
    rw [List.cons_append, List.infix_cons_iff] at h
    rcases h with h | h
    · rw [List.cons_prefix_cons] at h
      obtain ⟨hx, hy⟩ := h
      cases t with
      | nil =>
        rw [List.nil_append, singleton_prefix_head] at hy
        exact Or.inr (Or.inr ⟨by rw [← hx]; simp, hy⟩)
      | cons d t2 =>
        rw [List.cons_append, List.cons_prefix_cons] at hy
        obtain ⟨hyd, _⟩ := hy
        refine Or.inl ⟨[], t2, ?_⟩
        rw [← hx, ← hyd]
        simp
    · rcases ih b h with h1 | h1 | h1
      · exact Or.inl (List.infix_cons_iff.mpr (Or.inr h1))
      · exact Or.inr (Or.inl h1)
      · obtain ⟨hl, hh⟩ := h1
        cases t with
        | nil => simp at hl
        | cons d t2 =>
          exact Or.inr (Or.inr ⟨by rw [List.getLast?_cons_cons]; exact hl, hh⟩)

/-- `containsSub` decides the infix relation. -/
theorem containsSub_iff_isInfix (pat : Str) : ∀ s, containsSub pat s = true ↔ pat <:+: s := by
  intro s
  induction s with
  | nil =>
    rw [containsSub]
    simp [List.isEmpty_iff]
  | cons c t ih =>
    rw [containsSub, List.infix_cons_iff]
    simp only [Bool.or_eq_true, List.isPrefixOf_iff_prefix, ih]

/-- `containsSub` returning `false` refutes the infix relation. -/
theorem containsSub_eq_false_iff (pat : Str) (s : Str) :
    containsSub pat s = false ↔ ¬ pat <:+: s := by
  rw [← containsSub_iff_isInfix pat s]
  cases h : containsSub pat s <;> simp

/-- Head of an append with a non-empty left part. -/
theorem head?_append_left (a b : Str) (h : a ≠ []) : (a ++ b).head? = a.head? := by
  cases a with
  | nil => exact absurd rfl h
  | cons c t => rfl

/-- Last of an append with a non-empty right part. -/
theorem getLast?_append_right (a b : Str) (h : b ≠ []) : (a ++ b).getLast? = b.getLast? := by
  rw [List.getLast?_append]
  cases hq : b.getLast? with
  | none =>
    rw [List.getLast?_eq_none_iff] at hq
    exact absurd hq h
  | some z => rfl

theorem okOut_of_no_comma (s : Str) (h : (',' : Char) ∉ s) : OkOut s := by
  refine ⟨fun hin => h (hin.subset (by simp)), fun hh => ?_, fun hl => ?_⟩
  · exact h (List.mem_of_mem_head? (by rw [hh]; rfl))
  · exact h (List.mem_of_getLast?_eq_some hl)

theorem okOut_nil : OkOut [] :=
  okOut_of_no_comma [] (by simp)

/-- The words of a non-empty comma-free segment are plain `OkWord`s. -/
theorem okWord_of_seg (seg : Str) (hnc : (',' : Char) ∉ seg) :
    ∀ w ∈ words seg, OkWord w := by
  intro w hw
  obtain ⟨hwne, hwws⟩ := words_good seg w hw
  exact ⟨w, hwne, fun hc => hnc (words_chars seg w hw ',' hc), hwws, Or.inl rfl⟩

/-- Splitting off the first segment of a comma-space join. -/
theorem join_segs_cons (s : Str) (s2 : Str) (ss2 : List Str) :
    joinWith (str ", ") (s :: s2 :: ss2)
      = (s ++ [',']) ++ ' ' :: joinWith (str ", ") (s2 :: ss2) := by
  rw [joinWith, show str ", " = [',', ' '] from rfl]
  simp [List.append_assoc]

/-- Every word of a comma-space join of well-formed segments is an `OkWord`. -/
theorem words_join_segs_ok : ∀ (segs : List Str), (∀ s ∈ segs, SegGood s) →
    ∀ w ∈ words (joinWith (str ", ") segs), OkWord w := by
  intro segs
  induction segs with
  | nil =>
    intro _ w hw
    rw [joinWith, words_nil] at hw
    exact absurd hw (List.not_mem_nil w)
  | cons s ss ih =>
    intro hg w hw
    obtain ⟨h1, h2, h3⟩ := hg s (by simp)
    cases ss with
    | nil =>
      rw [joinWith] at hw
      exact okWord_of_seg s h2 w hw
    | cons s2 ss2 =>
      rw [join_segs_cons, words_append_space] at hw
      rcases List.mem_append.mp hw with hw1 | hw1
      · rw [words_append_comma s h1 h3] at hw1
        rcases mem_mapLastStr _ (words s) w hw1 with hmem | ⟨u, hu, hwu⟩
        · exact okWord_of_seg s h2 w hmem
        · obtain ⟨hune, huws⟩ := words_good s u hu
          exact ⟨u, hune, fun hc => h2 (words_chars s u hu ',' hc), huws, Or.inr hwu⟩
      · exact ih (fun t ht => hg t (by simp [ht])) w hw1

/-- A comma-space join of well-formed segments satisfies the formatting
invariant. -/
theorem join_segs_okOut : ∀ (segs : List Str), (∀ s ∈ segs, SegGood s) →
    OkOut (joinWith (str ", ") segs) := by
  intro segs
  induction segs with
  | nil => intro _; exact okOut_nil
  | cons s ss ih =>
    intro hg
    obtain ⟨h1, h2, h3⟩ := hg s (by simp)
    cases ss with
    | nil =>
      rw [joinWith]
      exact okOut_of_no_comma s h2
    | cons s2 ss2 =>
      obtain ⟨hnc, hh, hl⟩ := ih (fun t ht => hg t (by simp [ht]))
      rw [join_segs_cons]
      refine ⟨fun hin => ?_, ?_, ?_⟩
      · rcases pair_infix_append _ _ hin with hin1 | hin1 | hin1
        · rcases pair_infix_append _ _ hin1 with hin2 | hin2 | hin2
          · exact h2 (hin2.subset (by simp))
          · have := hin2.length_le
            simp at this
          · exact h2 (List.mem_of_getLast?_eq_some hin2.1)
        · rw [List.infix_cons_iff] at hin1
          rcases hin1 with hin2 | hin2
          · rw [List.cons_prefix_cons] at hin2
            exact absurd hin2.1.symm (by decide)
          · exact hnc hin2
        · have := hin1.2
          simp at this
      · rw [head?_append_left _ _ (by simp [h1]), head?_append_left _ _ h1]
        intro hcon
        exact h2 (List.mem_of_mem_head? (by rw [hcon]; rfl))
      · rw [getLast?_append_right _ _ (by simp)]
        cases hq : joinWith (str ", ") (s2 :: ss2) with
        | nil => simp
        | cons z zs =>
          rw [List.getLast?_cons_cons]
          rw [hq] at hl
          exact hl

/-- An `OkWord` contains no double comma, does not start with a comma, and
is non-empty. -/
theorem okWord_basic (w : Str) (h : OkWord w) :
    ¬ ([',', ','] : Str) <:+: w ∧ w.head? ≠ some ',' ∧ w ≠ [] := by
  obtain ⟨u, hu1, hu2, _, hu4⟩ := h
  rcases hu4 with h4 | h4
  · obtain ⟨a, b, c⟩ := okOut_of_no_comma u hu2
    rw [h4]
    exact ⟨a, b, hu1⟩
  · rw [h4]
    refine ⟨fun hin => ?_, ?_, by simp⟩
    · rcases pair_infix_append _ _ hin with hin1 | hin1 | hin1
      · exact hu2 (hin1.subset (by simp))
      · have := hin1.length_le
        simp at this
      · exact hu2 (List.mem_of_getLast?_eq_some hin1.1)
    · rw [head?_append_left _ _ hu1]
      intro hcon
      exact hu2 (List.mem_of_mem_head? (by rw [hcon]; rfl))

/-- A blank-join of `OkWord`s has no double comma and no leading comma. -/
theorem join_okwords_noCC : ∀ (l : List Str), (∀ w ∈ l, OkWord w) →
    ¬ ([',', ','] : Str) <:+: joinWith [' '] l ∧
      (joinWith [' '] l).head? ≠ some ',' := by
  intro l
  induction l with
  | nil =>
    intro _
    rw [joinWith]
    exact ⟨fun h => by have := h.length_le; simp at this, by simp⟩
  | cons w ws ih =>
    intro hg
    obtain ⟨hw1, hw2, hw3⟩ := okWord_basic w (hg w (by simp))
    cases ws with
    | nil =>
      rw [joinWith]
      exact ⟨hw1, hw2⟩
    | cons w2 ws2 =>
      obtain ⟨hnc, hh⟩ := ih (fun t ht => hg t (by simp [ht]))
      rw [joinWith]
      constructor
      · intro hin
        rcases pair_infix_append _ _ hin with hin1 | hin1 | hin1
        · rcases pair_infix_append _ _ hin1 with hin2 | hin2 | hin2
          · exact hw1 hin2
          · have := hin2.length_le
            simp at this
          · have := hin2.2
            simp at this
        · exact hnc hin1
        · rw [List.getLast?_concat] at hin1
          have := hin1.1
          simp at this
      · rw [head?_append_left _ _ (by simp [hw3]), head?_append_left _ _ hw3]
        exact hw2

/-! ## Segment goodness of the deduplication stage -/
/-- Deduplication only drops tokens, never invents them. -/
theorem dedupGo_subset : ∀ (l seen : List Str), ∀ t ∈ dedupGo seen l, t ∈ l := by
  intro l
  induction l with
  | nil =>
    intro seen t ht
    rw [dedupGo] at ht
    exact absurd ht (List.not_mem_nil t)
  | cons token rest ih =>
    intro seen t ht
    simp only [dedupGo] at ht
    by_cases hd : isDupOf seen (stemOf token) = true
    · rw [if_pos hd] at ht
      exact List.mem_cons_of_mem _ (ih seen t ht)
    · rw [if_neg hd] at ht
      rcases List.mem_cons.mp ht with h | h
      · simp [h]
      · exact List.mem_cons_of_mem _ (ih _ t h)

theorem splitOnComma_ne_nil : ∀ s : Str, splitOnComma s ≠ [] := by
  intro s
  cases s with
  | nil =>
    rw [splitOnComma]
    simp
  | cons c t =>
    rw [splitOnComma]
    by_cases hc : c = ','
    · rw [if_pos hc]
      simp
    · rw [if_neg hc]
      cases hq : splitOnComma t with
      | nil => simp
      | cons p ps => simp

/-- Pieces produced by splitting on commas are comma-free. -/
theorem splitOnComma_no_comma : ∀ (s : Str), ∀ p ∈ splitOnComma s, (',' : Char) ∉ p := by
  intro s
  induction s with
  | nil =>
    intro p hp
    rw [splitOnComma] at hp
    simp at hp
    subst hp
    simp
  | cons c t ih =>
    intro p hp
    rw [splitOnComma] at hp
    by_cases hc : c = ','
    · rw [if_pos hc] at hp
      rcases List.mem_cons.mp hp with h | h
      · subst h
        simp
      · exact ih p h
    · rw [if_neg hc] at hp
      cases hq : splitOnComma t with
      | nil =>
        rw [hq] at hp
        simp at hp
        subst hp
        intro hmem
        simp at hmem
        exact hc hmem.symm
      | cons q qs =>
        rw [hq] at hp
        rcases List.mem_cons.mp hp with h | h
        · subst h
          intro hmem
          rcases List.mem_cons.mp hmem with h2 | h2
          · exact hc h2.symm
          · exact ih q (by rw [hq]; simp) h2
        · exact ih p (by rw [hq]; simp [h])

theorem pyStrip_subset (s : Str) : ∀ c ∈ pyStrip s, c ∈ s := by
  intro c hc
  have h1 : c ∈ lstripWs s := ( List.rdropWhile_prefix _ _).subset hc
  exact (List.dropWhile_suffix isWs).subset h1

theorem pyStrip_last_not_ws (s : Str) :
    ∀ h : pyStrip s ≠ [], isWs ((pyStrip s).getLast h) = false := by
  intro h
  have h2 := List.rdropWhile_last_not isWs (lstripWs s) h
  simpa using h2

/-- Every segment surviving deduplication is well-formed. -/
theorem dedup_segGood (m : Str) :
    ∀ t ∈ dedupGo [] (((splitOnComma m).map pyStrip).filter (fun t => !t.isEmpty)),
      SegGood t := by
  intro t ht
  have h1 : t ∈ ((splitOnComma m).map pyStrip).filter (fun t => !t.isEmpty) :=
    dedupGo_subset _ [] t ht
  rw [List.mem_filter] at h1
  obtain ⟨h2, h3⟩ := h1
  rw [List.mem_map] at h2
  obtain ⟨piece, hp, hpt⟩ := h2
  subst hpt
  have hne : pyStrip piece ≠ [] := by
    intro hcon
    rw [hcon] at h3
    simp at h3
  refine ⟨hne, ?_, ?_⟩
  · intro hmem
    exact splitOnComma_no_comma m piece hp (pyStrip_subset piece ',' hmem)
  · intro hh
    exact pyStrip_last_not_ws piece hh

/-- The deduplication stage always emits a well-formatted string whose
words are all `OkWord`s. -/
theorem dedup_okOut (m : Str) :
    OkOut (deduplicate_prompt m) ∧ ∀ w ∈ words (deduplicate_prompt m), OkWord w := by
  simp only [deduplicate_prompt]
  exact ⟨join_segs_okOut _ (dedup_segGood m), words_join_segs_ok _ (dedup_segGood m)⟩

/-! ## Length enforcement preserves the formatting invariant -/
theorem rstripComma_of_no_comma (u : Str) (hne : u ≠ []) (hg : (',' : Char) ∉ u) :
    rstripComma u = u := by
  have h := rstripComma_append_good [] u hne hg
  simpa using h

/-- Right-stripping commas off an `OkWord` recovers its comma-free core. -/
theorem rstripComma_okWord (w : Str) (h : OkWord w) :
    ∃ u : Str, rstripComma w = u ∧ u ≠ [] ∧ (',' : Char) ∉ u ∧
      (∀ c ∈ u, isWs c = false) := by
  obtain ⟨u, hu1, hu2, hu3, hu4⟩ := h
  refine ⟨u, ?_, hu1, hu2, hu3⟩
  rcases hu4 with h4 | h4
  · rw [h4]
    exact rstripComma_of_no_comma u hu1 hu2
  · rw [h4, rstripComma, rdropWhile_append]
    rw [show List.rdropWhile (fun c => c == ',') ([','] : Str) = [] from by decide]
    rw [if_pos (show ([] : Str).isEmpty = true from rfl)]
    exact rstripComma_of_no_comma u hu1 hu2

theorem joinWith_cons_ne_nil (sep s : Str) (ss : List Str) (h : s ≠ []) :
    joinWith sep (s :: ss) ≠ [] := by
  cases ss with
  | nil =>
    rw [joinWith]
    exact h
  | cons s2 ss2 =>
    rw [joinWith]
    intro hc
    rw [List.append_eq_nil] at hc
    obtain ⟨hc1, _⟩ := hc
    rw [List.append_eq_nil] at hc1
    exact h hc1.1

/-- `enforce_length_limit` preserves the formatting invariant whenever
every word of its input is an `OkWord`. -/
theorem enforce_ok (D : Str) (k : Nat) (hok : OkOut D)
    (hwords : ∀ w ∈ words D, OkWord w) : OkOut (enforce_length_limit D k) := by
  simp only [enforce_length_limit]
  by_cases hle : (words D).length ≤ k
  · rw [if_pos hle]
    exact hok
  · rw [if_neg hle]
    cases k with
    | zero =>
      simp only [List.take_zero]
      rw [show rstripWs (rstripComma (joinWith [' '] ([] : List Str))) = [] from rfl]
      exact okOut_nil
    | succ k1 =>
      have hlen : ((words D).take (k1+1)).length = k1 + 1 := by
        rw [List.length_take]
        omega
      rcases List.eq_nil_or_concat ((words D).take (k1+1)) with hnil | ⟨l₀, w, hsplit⟩
      · rw [hnil] at hlen
        simp at hlen
      · rw [List.concat_eq_append] at hsplit
        have hsub : ∀ v ∈ (words D).take (k1+1), v ∈ words D :=
          fun v hv => List.take_subset _ _ hv
        have hwOk : OkWord w := hwords w (hsub w (by rw [hsplit]; simp))
        have hl₀Ok : ∀ v ∈ l₀, OkWord v :=
          fun v hv => hwords v (hsub v (by rw [hsplit]; simp [hv]))
        obtain ⟨u, hrc, hu1, hu2, hu3⟩ := rstripComma_okWord w hwOk
        rw [hsplit, joinWith_append_singleton]
        by_cases h0 : (l₀.isEmpty) = true
        · rw [if_pos h0, hrc, rstripWs_of_good u hu3]
          exact okOut_of_no_comma u hu2
        · rw [if_neg h0]
          rw [rstripComma, rdropWhile_append]
          have hne2 : (List.rdropWhile (fun c => c == ',') w).isEmpty = false := by
            rw [show List.rdropWhile (fun c => c == ',') w = u from hrc]
            cases u with
            | nil => exact absurd rfl hu1
            | cons a b => rfl
          rw [hne2]
          simp only [Bool.false_eq_true, if_false]
          rw [show List.rdropWhile (fun c => c == ',') w = u from hrc]
          rw [rstripWs_append_good _ _ hu1 hu3]
          have hl0ne : l₀ ≠ [] := by
            intro hcon
            rw [hcon] at h0
            exact h0 rfl
          obtain ⟨hjn, hjh⟩ := join_okwords_noCC l₀ hl₀Ok
          have hjne : joinWith [' '] l₀ ≠ [] := by
            cases l₀ with
            | nil => exact absurd rfl hl0ne
            | cons a as =>
              exact joinWith_cons_ne_nil [' '] a as (okWord_basic a (hl₀Ok a (by simp))).2.2
          refine ⟨fun hin => ?_, ?_, ?_⟩
          · rcases pair_infix_append _ _ hin with hin1 | hin1 | hin1
            · rcases pair_infix_append _ _ hin1 with hin2 | hin2 | hin2
              · exact hjn hin2
              · have h5 := hin2.length_le
                simp at h5
              · have h5 := hin2.2
                simp at h5
            · exact hu2 (hin1.subset (by simp))
            · rw [List.getLast?_concat] at hin1
              have h5 := hin1.1
              simp at h5
          · rw [head?_append_left _ _ (by simp [hjne]), head?_append_left _ _ hjne]
            exact hjh
          · rw [getLast?_append_right _ _ hu1]
            intro hcon
            exact hu2 (List.mem_of_getLast?_eq_some hcon)

/-! ## The all-whitespace early return -/
/-- If `pyStrip` empties a string, every one of its characters is
whitespace. -/
theorem pyStrip_empty_all_ws (s : Str) (h : (pyStrip s).isEmpty = true) :
    ∀ c ∈ s, isWs c = true := by
  rw [List.isEmpty_iff] at h
  have h2 : ∀ c ∈ lstripWs s, isWs c = true := List.rdropWhile_eq_nil_iff.mp h
  have h3 : s.takeWhile isWs ++ s.dropWhile isWs = s := List.takeWhile_append_dropWhile isWs s
  intro c hc
  rw [← h3] at hc
  rcases List.mem_append.mp hc with h4 | h4
  · exact List.mem_takeWhile_imp h4
  · exact h2 c h4

/-- An all-whitespace string splits into no words. -/
theorem words_of_all_ws : ∀ (s : Str), (∀ c ∈ s, isWs c = true) → words s = [] := by
  intro s
  induction s with
  | nil => intro _; exact words_nil
  | cons c t ih =>
    intro h
    rw [words_cons_of_ws t (h c (by simp))]
    exact ih (fun d hd => h d (by simp [hd]))

/-- An all-whitespace string is comma-free. -/
theorem all_ws_no_comma (s : Str) (h : ∀ c ∈ s, isWs c = true) :
    (',' : Char) ∉ s := by
  intro hc
  have h2 := h ',' hc
  exact absurd h2 (by decide)

/-! ## Gap lists draw from the pool keys -/
theorem insertStr_mem (x : Str) : ∀ (l : List Str) (y : Str), y ∈ insertStr x l → y = x ∨ y ∈ l := by
  intro l
  induction l with
  | nil =>
    intro y hy
    rw [insertStr] at hy
    simp at hy
    exact Or.inl hy
  | cons z zs ih =>
    intro y hy
    rw [insertStr] at hy
    by_cases hlt : strLt z x = true
    · rw [if_pos hlt] at hy
      rcases List.mem_cons.mp hy with h | h
      · exact Or.inr (by simp [h])
      · rcases ih y h with h2 | h2
        · exact Or.inl h2
        · exact Or.inr (by simp [h2])
    · rw [if_neg hlt] at hy
      rcases List.mem_cons.mp hy with h | h
      · exact Or.inl h
      · exact Or.inr h

theorem sortStr_subset : ∀ (l : List Str) (y : Str), y ∈ sortStr l → y ∈ l := by
  intro l
  induction l with
  | nil =>
    intro y hy
    exact absurd hy (List.not_mem_nil y)
  | cons z zs ih =>
    intro y hy
    rcases insertStr_mem z (sortStr zs) y hy with h | h
    · simp [h]
    · exact List.mem_cons_of_mem _ (ih y h)

theorem insertByScore_mem (x : Str × Nat) : ∀ (l : List (Str × Nat)) (y : Str × Nat),
    y ∈ insertByScore x l → y = x ∨ y ∈ l := by
  intro l
  induction l with
  | nil =>
    intro y hy
    rw [insertByScore] at hy
    simp at hy
    exact Or.inl hy
  | cons z zs ih =>
    intro y hy
    rw [insertByScore] at hy
    by_cases hlt : z.2 < x.2
    · rw [if_pos hlt] at hy
      rcases List.mem_cons.mp hy with h | h
      · exact Or.inr (by simp [h])
      · rcases ih y h with h2 | h2
        · exact Or.inl h2
        · exact Or.inr (by simp [h2])
    · rw [if_neg hlt] at hy
      rcases List.mem_cons.mp hy with h | h
      · exact Or.inl h
      · exact Or.inr h

theorem sortByScore_subset : ∀ (l : List (Str × Nat)) (y : Str × Nat),
    y ∈ sortByScore l → y ∈ l := by
  intro l
  induction l with
  | nil =>
    intro y hy
    exact absurd hy (List.not_mem_nil y)
  | cons z zs ih =>
    intro y hy
    rcases insertByScore_mem z (sortByScore zs) y hy with h | h
    · simp [h]
    · exact List.mem_cons_of_mem _ (ih y h)

theorem mem_enumFrom_snd {α : Type} : ∀ (l : List α) (n : Nat) (p : Nat × α),
    p ∈ l.enumFrom n → p.2 ∈ l := by
  intro l
  induction l with
  | nil =>
    intro n p hp
    exact absurd hp (List.not_mem_nil p)
  | cons x xs ih =>
    intro n p hp
    rw [List.enumFrom] at hp
    rcases List.mem_cons.mp hp with h | h
    · rw [h]
      simp
    · exact List.mem_cons_of_mem _ (ih (n+1) p h)

/-- Intensity thinning keeps a subset of the incoming gaps. -/
theorem select_gaps_subset (seed input_hash : Nat) (gaps : List Str) (intensity : Str) :
    ∀ g ∈ select_gaps_to_fill seed input_hash gaps intensity, g ∈ gaps := by
  intro g hg
  simp only [select_gaps_to_fill] at hg
  by_cases h1 : ((INTENSITY_RATES.lookup intensity).getD (3, 4)).2
      ≤ ((INTENSITY_RATES.lookup intensity).getD (3, 4)).1
  · rw [if_pos h1] at hg
    exact hg
  · rw [if_neg h1] at hg
    by_cases h2 : gaps.length
        ≤ max 1 (gaps.length * ((INTENSITY_RATES.lookup intensity).getD (3, 4)).1
          / ((INTENSITY_RATES.lookup intensity).getD (3, 4)).2)
    · rw [if_pos h2] at hg
      exact hg
    · rw [if_neg h2] at hg
      rw [List.mem_map] at hg
      obtain ⟨pr, hpr, heq⟩ := hg
      have h3 : pr ∈ sortByScore (gaps.enum.map
          (fun ig => (ig.2, enhancement_hash seed input_hash (2000 + ig.1)))) :=
        List.take_subset _ _ hpr
      have h4 := sortByScore_subset _ _ h3
      rw [List.mem_map] at h4
      obtain ⟨ig, hig, heq2⟩ := h4
      have h5 : ig.2 ∈ gaps := mem_enumFrom_snd gaps 0 ig hig
      rw [← heq, ← heq2]
      exact h5

/-- Every finally selected gap is a key of the profile's pools. -/
theorem gapsFinal_subset_keys (seed : Nat) (profile : Profile) (intensity prompt : Str) :
    ∀ g ∈ sortStr (gapsFinal seed profile intensity prompt),
      g ∈ profile.pools.map Prod.fst := by
  intro g hg
  have h1 := sortStr_subset _ _ hg
  have h2 := select_gaps_subset _ _ _ _ _ h1
  simp only [gapsAfterRules, apply_category_rules] at h2
  have h3 := List.mem_of_mem_filter h2
  simp only [find_gaps] at h3
  have h4 := sortStr_subset _ _ h3
  have h5 := List.mem_of_mem_filter h4
  exact List.mem_dedup.mp h5

/-- On a non-empty pool the anti-pair checked selection always returns a
value (the conflicting primary pick as a last resort). -/
theorem select_isSome (seed input_hash idx : Nat) (pool : List Str)
    (forbidden : List Str) (h : pool ≠ []) :
    ∃ sel, select_with_antipair_check seed input_hash idx pool forbidden = some sel := by
  simp only [select_with_antipair_check]
  have hl : 0 < pool.length := List.length_pos.mpr h
  rw [dif_pos hl]
  split
  · split
    · exact ⟨_, rfl⟩
    · exact ⟨_, rfl⟩
  · exact ⟨_, rfl⟩

/-- When every gap has a non-empty pool, the V1 and V2 selection loops
agree (V2's emptiness guard and V1's unguarded lookup coincide). -/
theorem selectLoop_eq (seed input_hash : Nat) (pools : List (Str × List Str))
    (forbidden : List Str) :
    ∀ (gaps : List Str) (i : Nat),
      (∀ g ∈ gaps, ∃ pool, pools.lookup g = some pool ∧ pool ≠ []) →
      V1.selectLoop seed input_hash pools forbidden i gaps
        = V2.selectLoop seed input_hash pools forbidden i gaps := by
  intro gaps
  induction gaps with
  | nil => intro i _; rfl
  | cons gap rest ih =>
    intro i hg
    obtain ⟨pool, hp, hpne⟩ := hg gap (by simp)
    have hpe : pool.isEmpty = false := by
      cases pool with
      | nil => exact absurd rfl hpne
      | cons a b => rfl
    obtain ⟨sel, hsel⟩ := select_isSome seed input_hash (i+1) pool forbidden hpne
    rw [V1.selectLoop, V2.selectLoop, hp]
    simp only [hpe, hsel, Bool.false_eq_true, if_false]
    rw [ih (i+1) (fun g hgr => hg g (by simp [hgr]))]

/-- Every key of the built-in default pools maps to a non-empty pool. -/
theorem defaultPools_lookup_nonempty :
    ∀ g ∈ defaultPools.map Prod.fst,
      ∃ pool, defaultPools.lookup g = some pool ∧ pool ≠ [] := by
  intro g hg
  simp [defaultPools] at hg
  rcases hg with h|h|h|h|h|h|h|h <;> subst h
  · exact ⟨defaultPoolSubject, rfl, by rw [defaultPoolSubject]; exact List.cons_ne_nil _ _⟩
  · exact ⟨defaultPoolAction, rfl, by rw [defaultPoolAction]; exact List.cons_ne_nil _ _⟩
  · exact ⟨defaultPoolEnvironment, rfl, by rw [defaultPoolEnvironment]; exact List.cons_ne_nil _ _⟩
  · exact ⟨defaultPoolStyle, rfl, by rw [defaultPoolStyle]; exact List.cons_ne_nil _ _⟩
  · exact ⟨defaultPoolLighting, rfl, by rw [defaultPoolLighting]; exact List.cons_ne_nil _ _⟩
  · exact ⟨defaultPoolCamera, rfl, by rw [defaultPoolCamera]; exact List.cons_ne_nil _ _⟩
  · exact ⟨defaultPoolDetails, rfl, by rw [defaultPoolDetails]; exact List.cons_ne_nil _ _⟩
  · exact ⟨defaultPoolMood, rfl, by rw [defaultPoolMood]; exact List.cons_ne_nil _ _⟩

end ZeroENH

namespace ZeroENH.V2

/-! ## Coordinate ranges of the ghost decision log -/
theorem antiAttemptsQueried_mem (seed input_hash cc : Nat) (pool : List Str)
    (hpool : 0 < pool.length) (forbidden : List Str) :
    ∀ (remaining attempt : Nat),
      ∀ a ∈ antiAttemptsQueried seed input_hash cc pool hpool forbidden attempt remaining,
        attempt ≤ a ∧ a < attempt + remaining := by
  intro remaining
  induction remaining with
  | zero =>
    intro attempt a ha
    rw [antiAttemptsQueried] at ha
    exact absurd ha (List.not_mem_nil a)
  | succ rem ih =>
    intro attempt a ha
    simp only [antiAttemptsQueried] at ha
    by_cases hc : conflictsWith forbidden (pool.get ⟨hash_to_index
        (enhancement_hash seed input_hash (cc + attempt)) pool.length,
        Nat.mod_lt _ hpool⟩) = true
    · rw [if_pos hc] at ha
      rcases List.mem_cons.mp ha with h | h
      · subst h
        omega
      · have h2 := ih (attempt + 1) a h
        omega
    · rw [if_neg hc] at ha
      simp at ha
      subst ha
      omega

theorem decisionsForGap_mem (seed input_hash i : Nat) (pool : List Str)
    (hpool : 0 < pool.length) (forbidden : List Str) :
    ∀ p ∈ decisionsForGap seed input_hash i pool hpool forbidden,
      (p.1 = DecisionId.primary i ∧ p.2 = i + 1) ∨
      (∃ a, a < 50 ∧ p.1 = DecisionId.antiAttempt i a ∧ p.2 = (i + 1) + 1000 + a) := by
  intro p hp
  simp only [decisionsForGap] at hp
  rcases List.mem_cons.mp hp with h | h
  · rw [h]
    exact Or.inl ⟨rfl, rfl⟩
  · by_cases hc : conflictsWith forbidden (pool.get ⟨hash_to_index
        (enhancement_hash seed input_hash (i + 1)) pool.length,
        Nat.mod_lt _ hpool⟩) = true
    · rw [if_pos hc] at h
      rw [List.mem_map] at h
      obtain ⟨a, ha, heq⟩ := h
      have hb := antiAttemptsQueried_mem seed input_hash ((i + 1) + 1000) pool hpool
        forbidden (min pool.length 50) 0 a ha
      have h50 := Nat.min_le_right pool.length 50
      refine Or.inr ⟨a, by omega, by rw [← heq], by rw [← heq]⟩
    · rw [if_neg hc] at h
      exact absurd h (List.not_mem_nil p)

theorem selectDecisions_mem (seed input_hash : Nat) (pools : List (Str × List Str))
    (forbidden : List Str) :
    ∀ (gaps : List Str) (i : Nat),
      ∀ p ∈ selectDecisions seed input_hash pools forbidden i gaps,
        ∃ j, i ≤ j ∧ j < i + gaps.length ∧
          ((p.1 = DecisionId.primary j ∧ p.2 = j + 1) ∨
           (∃ a, a < 50 ∧ p.1 = DecisionId.antiAttempt j a ∧ p.2 = (j + 1) + 1000 + a)) := by
  intro gaps
  induction gaps with
  | nil =>
    intro i p hp
    rw [selectDecisions] at hp
    exact absurd hp (List.not_mem_nil p)
  | cons gap rest ih =>
    intro i p hp
    rw [selectDecisions] at hp
    rcases List.mem_append.mp hp with h | h
    · cases hq : pools.lookup gap with
      | none =>
        simp only [hq] at h
        simp at h
      | some pool =>
        simp only [hq] at h
        by_cases hl : 0 < pool.length
        · rw [dif_pos hl] at h
          refine ⟨i, le_rfl, ?_, decisionsForGap_mem seed input_hash i pool hl forbidden p h⟩
          simp
        · rw [dif_neg hl] at h
          simp at h
    · obtain ⟨j, hj1, hj2, hj3⟩ := ih (i + 1) p h
      refine ⟨j, by omega, ?_, hj3⟩
      simp only [List.length_cons]
      omega

theorem scoreDecisions_mem (gaps : List Str) (intensity : Str) :
    ∀ p ∈ scoreDecisions gaps intensity,
      ∃ j, j < gaps.length ∧ p.1 = DecisionId.gapScore j ∧ p.2 = 2000 + j := by
  intro p hp
  simp only [scoreDecisions] at hp
  by_cases h1 : ((INTENSITY_RATES.lookup intensity).getD (3, 4)).2
      ≤ ((INTENSITY_RATES.lookup intensity).getD (3, 4)).1
  · rw [if_pos h1] at hp
    simp at hp
  · rw [if_neg h1] at hp
    by_cases h2 : gaps.length ≤ max 1 (gaps.length
        * ((INTENSITY_RATES.lookup intensity).getD (3, 4)).1
        / ((INTENSITY_RATES.lookup intensity).getD (3, 4)).2)
    · rw [if_pos h2] at hp
      simp at hp
    · rw [if_neg h2] at hp
      rw [List.mem_map] at hp
      obtain ⟨j, hj, heq⟩ := hp
      rw [List.mem_range] at hj
      exact ⟨j, hj, by rw [← heq], by rw [← heq]⟩

end ZeroENH.V2

namespace ZeroENH

theorem length_insertStr (x : Str) : ∀ l : List Str, (insertStr x l).length = l.length + 1 := by
  intro l
  induction l with
  | nil => rfl
  | cons y ys ih =>
    rw [insertStr]
    by_cases h : strLt y x = true
    · rw [if_pos h]
      simp [ih]
    · rw [if_neg h]
      simp

theorem length_sortStr (l : List Str) : (sortStr l).length = l.length := by
  induction l with
  | nil => rfl
  | cons y ys ih =>
    show (insertStr y (sortStr ys)).length = ys.length + 1
    rw [length_insertStr, ih]

theorem length_insertByScore (x : Str × Nat) : ∀ l : List (Str × Nat),
    (insertByScore x l).length = l.length + 1 := by
  intro l
  induction l with
  | nil => rfl
  | cons y ys ih =>
    rw [insertByScore]
    by_cases h : y.2 < x.2
    · rw [if_pos h]
      simp [ih]
    · rw [if_neg h]
      simp

theorem length_sortByScore (l : List (Str × Nat)) : (sortByScore l).length = l.length := by
  induction l with
  | nil => rfl
  | cons y ys ih =>
    show (insertByScore y (sortByScore ys)).length = ys.length + 1
    rw [length_insertByScore, ih]

/-- Intensity thinning never lengthens the gap list. -/
theorem select_gaps_length_le (seed input_hash : Nat) (gaps : List Str) (intensity : Str) :
    (select_gaps_to_fill seed input_hash gaps intensity).length ≤ gaps.length := by
  simp only [select_gaps_to_fill]
  by_cases h1 : ((INTENSITY_RATES.lookup intensity).getD (3, 4)).2
      ≤ ((INTENSITY_RATES.lookup intensity).getD (3, 4)).1
  · rw [if_pos h1]
  · rw [if_neg h1]
    by_cases h2 : gaps.length ≤ max 1 (gaps.length
        * ((INTENSITY_RATES.lookup intensity).getD (3, 4)).1
        / ((INTENSITY_RATES.lookup intensity).getD (3, 4)).2)
    · rw [if_pos h2]
    · rw [if_neg h2]
      rw [List.length_map]
      calc ((sortByScore (gaps.enum.map (fun ig =>
              (ig.2, enhancement_hash seed input_hash (2000 + ig.1))))).take
              (max 1 (gaps.length * ((INTENSITY_RATES.lookup intensity).getD (3, 4)).1
                / ((INTENSITY_RATES.lookup intensity).getD (3, 4)).2))).length
          ≤ (sortByScore (gaps.enum.map (fun ig =>
              (ig.2, enhancement_hash seed input_hash (2000 + ig.1))))).length :=
            (List.take_sublist _ _).length_le
        _ = gaps.length := by
            rw [length_sortByScore, List.length_map, List.enum_length]

end ZeroENH

namespace ZeroENH.V2

/-- Shape of every entry of the ghost decision log. -/
theorem decisionsOf_mem (prompt : Str) (seed : Nat) (profile : Profile) (intensity : Str) :
    ∀ p ∈ decisionsOf prompt seed profile intensity,
      (p.1 = DecisionId.template ∧ p.2 = 0) ∨
      (∃ j, j < (gapsAfterRules profile intensity prompt).length ∧
        ((p.1 = DecisionId.primary j ∧ p.2 = j + 1) ∨
         (∃ a, a < 50 ∧ p.1 = DecisionId.antiAttempt j a ∧ p.2 = (j + 1) + 1000 + a) ∨
         (p.1 = DecisionId.gapScore j ∧ p.2 = 2000 + j))) := by
  intro p hp
  simp only [decisionsOf] at hp
  by_cases he : (pyStrip prompt).isEmpty = true
  · rw [if_pos he] at hp
    simp at hp
  · rw [if_neg he] at hp
    have hNG : (sortStr (gapsFinal seed profile intensity prompt)).length
        ≤ (gapsAfterRules profile intensity prompt).length := by
      rw [length_sortStr]
      exact select_gaps_length_le _ _ _ _
    rcases List.mem_append.mp hp with hp1 | hp1
    · rcases List.mem_append.mp hp1 with hp2 | hp2
      · obtain ⟨j, hj, h1, h2⟩ := scoreDecisions_mem _ _ p hp2
        exact Or.inr ⟨j, hj, Or.inr (Or.inr ⟨h1, h2⟩)⟩
      · obtain ⟨j, hj0, hj1, hj2⟩ := selectDecisions_mem _ _ _ _ _ 0 p hp2
        rcases hj2 with h | h
        · exact Or.inr ⟨j, by omega, Or.inl h⟩
        · exact Or.inr ⟨j, by omega, Or.inr (Or.inl h)⟩
    · cases hm : enhancementsOf seed profile intensity prompt with
      | some e =>
        simp only [hm] at hp1
        simp at hp1
        exact Or.inl (by rw [hp1]; exact ⟨rfl, rfl⟩)
      | none =>
        simp only [hm] at hp1
        simp at hp1

/-- Coordinate separation of the decision log, up to cross-category
anti-pair attempts, for profiles with at most 950 rule-filtered gaps. -/
theorem coord_partition_core (prompt : Str) (seed : Nat) (profile : Profile) (intensity : Str)
    (hG : (gapsAfterRules profile intensity prompt).length ≤ 950) :
    ∀ p ∈ decisionsOf prompt seed profile intensity,
      ∀ q ∈ decisionsOf prompt seed profile intensity,
        p.1 ≠ q.1 →
        (∀ i a j b, p.1 = DecisionId.antiAttempt i a → q.1 = DecisionId.antiAttempt j b → i = j) →
        p.2 ≠ q.2 := by
  intro p hp q hq hne hcross heq
  rcases decisionsOf_mem prompt seed profile intensity p hp with ⟨hp1, hp2⟩ | ⟨j1, hj1, hsp⟩
  · rcases decisionsOf_mem prompt seed profile intensity q hq with ⟨hq1, hq2⟩ | ⟨j2, hj2, hsq⟩
    · exact hne (by rw [hp1, hq1])
    · rcases hsq with ⟨hq1, hq2⟩ | ⟨a2, ha2, hq1, hq2⟩ | ⟨hq1, hq2⟩ <;> omega
  · rcases decisionsOf_mem prompt seed profile intensity q hq with ⟨hq1, hq2⟩ | ⟨j2, hj2, hsq⟩
    · rcases hsp with ⟨hp1, hp2⟩ | ⟨a1, ha1, hp1, hp2⟩ | ⟨hp1, hp2⟩ <;> omega
    · rcases hsp with ⟨hp1, hp2⟩ | ⟨a1, ha1, hp1, hp2⟩ | ⟨hp1, hp2⟩ <;>
        rcases hsq with ⟨hq1, hq2⟩ | ⟨a2, ha2, hq1, hq2⟩ | ⟨hq1, hq2⟩
      · have hj : j1 = j2 := by omega
        exact hne (by rw [hp1, hq1, hj])
      · omega
      · omega
      · omega
      · have hj : j1 = j2 := hcross j1 a1 j2 a2 hp1 hq1
        have ha : a1 = a2 := by omega
        exact hne (by rw [hp1, hq1, hj, ha])
      · omega
      · omega
      · omega
      · have hj : j1 = j2 := by omega
        exact hne (by rw [hp1, hq1, hj])

end ZeroENH.V2

namespace ZeroENH

/-! ## sortByScore sorts ascending by score -/
theorem insertByScore_perm (x : Str × Nat) : ∀ l, List.Perm (insertByScore x l) (x :: l) := by
  intro l
  induction l with
  | nil => exact List.Perm.refl _
  | cons y ys ih =>
    rw [insertByScore]
    by_cases h : y.2 < x.2
    · rw [if_pos h]
      exact List.Perm.trans (List.Perm.cons y ih) (List.Perm.swap x y ys)
    · rw [if_neg h]

theorem sortByScore_perm : ∀ l, List.Perm (sortByScore l) l := by
  intro l
  induction l with
  | nil => exact List.Perm.refl _
  | cons y ys ih =>
    exact List.Perm.trans (insertByScore_perm y _) (List.Perm.cons y ih)

theorem insertByScore_pairwise (x : Str × Nat) :
    ∀ l, List.Pairwise (fun p q : Str × Nat => p.2 ≤ q.2) l →
      List.Pairwise (fun p q : Str × Nat => p.2 ≤ q.2) (insertByScore x l) := by
  intro l
  induction l with
  | nil =>
    intro _
    rw [insertByScore]
    exact List.pairwise_singleton _ _
  | cons y ys ih =>
    intro hp
    rw [List.pairwise_cons] at hp
    obtain ⟨hy, hys⟩ := hp
    rw [insertByScore]
    by_cases h : y.2 < x.2
    · rw [if_pos h]
      rw [List.pairwise_cons]
      refine ⟨?_, ih hys⟩
      intro z hz
      rcases insertByScore_mem x ys z hz with h2 | h2
      · rw [h2]
        omega
      · exact hy z h2
    · rw [if_neg h]
      rw [List.pairwise_cons]
      refine ⟨?_, ?_⟩
      · intro z hz
        rcases List.mem_cons.mp hz with h2 | h2
        · rw [h2]
          omega
        · have h3 := hy z h2
          omega
      · rw [List.pairwise_cons]
        exact ⟨hy, hys⟩

theorem sortByScore_pairwise :
    ∀ l, List.Pairwise (fun p q : Str × Nat => p.2 ≤ q.2) (sortByScore l) := by
  intro l
  induction l with
  | nil => exact List.Pairwise.nil
  | cons y ys ih => exact insertByScore_pairwise y (sortByScore ys) ih

theorem pairwise_take_drop {l : List (Str × Nat)}
    (h : List.Pairwise (fun p q : Str × Nat => p.2 ≤ q.2) l) (n : Nat) :
    ∀ p ∈ l.take n, ∀ q ∈ l.drop n, p.2 ≤ q.2 := by
  have h2 := h
  rw [← List.take_append_drop n l, List.pairwise_append] at h2
  exact h2.2.2

/-! ## Anti-pair fallback and graceful degradation -/
/-- A successful fallback search returns a conflict-free pool member. -/
theorem antipairSearch_some_clean (seed input_hash cc : Nat) (pool : List Str)
    (hpool : 0 < pool.length) (forbidden : List Str) :
    ∀ (remaining attempt : Nat) (alt : Str),
      antipairSearch seed input_hash cc pool hpool forbidden attempt remaining = some alt →
      conflictsWith forbidden alt = false ∧ alt ∈ pool := by
  intro remaining
  induction remaining with
  | zero =>
    intro attempt alt h
    rw [antipairSearch] at h
    exact absurd h (by simp)
  | succ rem ih =>
    intro attempt alt h
    simp only [antipairSearch] at h
    by_cases hc : conflictsWith forbidden (pool.get ⟨hash_to_index
        (enhancement_hash seed input_hash (cc + attempt)) pool.length,
        Nat.mod_lt _ hpool⟩) = true
    · rw [if_pos hc] at h
      exact ih (attempt + 1) alt h
    · rw [if_neg hc] at h
      have halt : pool.get ⟨hash_to_index
          (enhancement_hash seed input_hash (cc + attempt)) pool.length,
          Nat.mod_lt _ hpool⟩ = alt := by
        injection h
      rw [← halt]
      exact ⟨by simpa using hc, List.get_mem _ _ _⟩

/-- Full behaviour of `select_with_antipair_check` on a non-empty pool:
it always answers with a pool member, the answer is conflict-free unless
the probe sequence found no conflict-free candidate, and in that last case
it is exactly the conflicting primary pick. -/
theorem select_spec (seed input_hash idx : Nat) (pool : List Str)
    (forbidden : List Str) (h : pool ≠ []) :
    ∃ sel, select_with_antipair_check seed input_hash idx pool forbidden = some sel ∧
      sel ∈ pool ∧
      (conflictsWith forbidden sel = false ∨
        (antipairSearch seed input_hash (idx + 1000) pool (List.length_pos.mpr h)
            forbidden 0 (min pool.length 50) = none ∧
          sel = pool.get ⟨hash_to_index (enhancement_hash seed input_hash idx) pool.length,
            Nat.mod_lt _ (List.length_pos.mpr h)⟩)) := by
  have hl : 0 < pool.length := List.length_pos.mpr h
  simp only [select_with_antipair_check]
  rw [dif_pos hl]
  by_cases hc : conflictsWith forbidden (pool.get ⟨hash_to_index
      (enhancement_hash seed input_hash idx) pool.length, Nat.mod_lt _ hl⟩) = true
  · rw [if_pos hc]
    cases hs : antipairSearch seed input_hash (idx + 1000) pool hl forbidden 0
        (min pool.length 50) with
    | some alt =>
      obtain ⟨hclean, hmem⟩ := antipairSearch_some_clean _ _ _ _ hl _ _ _ _ hs
      exact ⟨alt, rfl, hmem, Or.inl hclean⟩
    | none =>
      exact ⟨_, rfl, List.get_mem _ _ _, Or.inr ⟨rfl, rfl⟩⟩
  · rw [if_neg hc]
    exact ⟨_, rfl, List.get_mem _ _ _, Or.inl (by simpa using hc)⟩

/-- V2's guarded selection loop never fails. -/
theorem v2_selectLoop_isSome (seed input_hash : Nat) (pools : List (Str × List Str))
    (forbidden : List Str) :
    ∀ (gaps : List Str) (i : Nat), ∃ enhs,
      V2.selectLoop seed input_hash pools forbidden i gaps = some enhs := by
  intro gaps
  induction gaps with
  | nil =>
    intro i
    exact ⟨[], rfl⟩
  | cons gap rest ih =>
    intro i
    rw [V2.selectLoop]
    cases hq : pools.lookup gap with
    | none =>
      simp only [hq]
      exact ih (i + 1)
    | some pool =>
      simp only [hq]
      by_cases hpe : pool.isEmpty = true
      · rw [if_pos hpe]
        exact ih (i + 1)
      · rw [if_neg hpe]
        have hne : pool ≠ [] := fun hcon => hpe (by rw [hcon]; rfl)
        obtain ⟨sel, hsel⟩ := select_isSome seed input_hash (i + 1) pool forbidden hne
        simp only [hsel]
        obtain ⟨enhs, henhs⟩ := ih (i + 1)
        rw [henhs]
        exact ⟨(gap, sel) :: enhs, rfl⟩

theorem lookup_map_self (f : Str → Str) :
    ∀ (l : List Str) (cat : Str), cat ∈ l →
      (l.map (fun c => (c, f c))).lookup cat = some (f cat) := by
  intro l
  induction l with
  | nil =>
    intro cat h
    exact absurd h (List.not_mem_nil cat)
  | cons c rest ih =>
    intro cat h
    rw [List.map_cons]
    by_cases hc : (cat == c) = true
    · have hceq : cat = c := by simpa using hc
      subst hceq
      simp [List.lookup]
    · have hmem : cat ∈ rest := by
        rcases List.mem_cons.mp h with h2 | h2
        · exact absurd (by simp [h2]) hc
        · exact h2
      simp only [List.lookup, hc]
      exact ih cat hmem

/-- A category with an empty (or missing) classification bucket and no
selected enhancement substitutes to the empty string. -/
theorem componentsOf_blank (classified : List (Str × List Str)) (enhs : List (Str × Str))
    (cat : Str) (hcat : cat ∈ ORDERED_CATEGORIES)
    (hclass : classified.lookup cat = none ∨
      ∃ l, classified.lookup cat = some l ∧ l.isEmpty = true)
    (henh : enhs.lookup cat = none) :
    (componentsOf classified enhs).lookup cat = some [] := by
  simp only [componentsOf]
  rw [lookup_map_self _ ORDERED_CATEGORIES cat hcat]
  rcases hclass with h | ⟨l, hl, hle⟩
  · simp [h, henh]
  · simp [hl, hle, henh]

/-- Every member of a join is an infix of it. -/
theorem mem_joinWith_isInfix (sep : Str) : ∀ (l : List Str) (t : Str), t ∈ l →
    t <:+: joinWith sep l := by
  intro l
  induction l with
  | nil =>
    intro t ht
    exact absurd ht (List.not_mem_nil t)
  | cons x xs ih =>
    intro t ht
    cases xs with
    | nil =>
      rw [joinWith]
      rcases List.mem_cons.mp ht with h | h
      · rw [h]
      · exact absurd h (List.not_mem_nil t)
    | cons y ys =>
      rw [joinWith]
      rcases List.mem_cons.mp ht with h | h
      · rw [h]
        exact ⟨[], sep ++ joinWith sep (y :: ys), by simp⟩
      · obtain ⟨s, t2, hst⟩ := ih t h
        exact ⟨(x ++ sep) ++ s, t2, by rw [← hst]; simp⟩

/-- An all-whitespace string strips to nothing. -/
theorem all_ws_pyStrip_empty (s : Str) (h : ∀ c ∈ s, isWs c = true) :
    (pyStrip s).isEmpty = true := by
  have h1 : s.dropWhile isWs = [] := List.dropWhile_eq_nil_iff.mpr (fun c hc => h c hc)
  rw [List.isEmpty_iff, pyStrip, lstripWs, h1]
  rfl

/-- Every successful V2 call is either the whitespace short-circuit or the
enforced, deduplicated merge result. -/
theorem enhance_out_shape (input : Str) (seed : Nat) (profile : Profile)
    (intensity : Str) (k : Nat) (o : Str)
    (h : V2.enhance_prompt input seed profile intensity k = some o) :
    (o = input ∧ (pyStrip input).isEmpty = true) ∨
    ∃ m, V2.mergedOf seed profile intensity input = some m ∧
      o = enforce_length_limit (deduplicate_prompt m) k := by
  rw [V2.enhance_prompt] at h
  by_cases he : (pyStrip input).isEmpty = true
  · rw [if_pos he] at h
    have : input = o := by injection h
    exact Or.inl ⟨this.symm, he⟩
  · rw [if_neg he] at h
    cases hm : V2.mergedOf seed profile intensity input with
    | none =>
      rw [hm] at h
      exact absurd h (by simp)
    | some m =>
      rw [hm] at h
      refine Or.inr ⟨m, rfl, ?_⟩
      have h2 : enforce_length_limit (deduplicate_prompt m) k = o := by
        have h3 := h
        simp only [Option.map_some] at h3
        injection h3
      exact h2.symm

/-! ## The ten claims -/
/-- C1: Determinism.  The V2 entry point is a pure function of its argument
tuple: equal inputs give byte-identical outputs, and in any sequence of
calls the result at each position is exactly the function of that call's
own arguments, independent of call order, iteration order or prior calls
(the embedded pipeline reads no state outside its parameters). -/
theorem claim_C1_determinism :
    (∀ (c c' : CallArgs), c = c' → runCall c = runCall c') ∧
    (∀ (pre post : List CallArgs) (c : CallArgs),
      ((pre ++ c :: post).map runCall).get? pre.length = some (runCall c)) := by
  constructor
  · intro c c' h
    rw [h]
  · intro pre post c
    rw [List.map_append, List.get?_append_right (by simp)]
    simp

theorem claim_C1_witness :
    runCall ⟨str "zzz", 42, exProfileA, str "full", 1⟩
      = runCall ⟨str "zzz", 42, exProfileA, str "full", 1⟩ ∧
    (([⟨str "zzz", 42, exProfileA, str "full", 1⟩,
       ⟨str "zzz", 42, exProfileA, str "full", 1⟩] : List CallArgs).map runCall).get? 1
      = some (runCall ⟨str "zzz", 42, exProfileA, str "full", 1⟩) :=
  ⟨claim_C1_determinism.1 _ _ rfl,
   claim_C1_determinism.2 [⟨str "zzz", 42, exProfileA, str "full", 1⟩] []
     ⟨str "zzz", 42, exProfileA, str "full", 1⟩⟩

/-- C2: Word-limit enforcement.  Every successful V2 call with budget
`k ≥ 1` returns a string of at most `k` whitespace-words; and
`enforce_length_limit` returns its input unchanged when within budget,
else the first `k` words rejoined with single blanks with trailing
commas/whitespace stripped. -/
theorem claim_C2_word_limit :
    (∀ (input : Str) (seed : Nat) (profile : Profile) (intensity : Str) (k : Nat) (o : Str),
      1 ≤ k → V2.enhance_prompt input seed profile intensity k = some o →
      countWords o ≤ k) ∧
    (∀ (p : Str) (k : Nat), countWords p ≤ k → enforce_length_limit p k = p) ∧
    (∀ (p : Str) (k : Nat), ¬ countWords p ≤ k →
      enforce_length_limit p k
        = rstripWs (rstripComma (joinWith [' '] ((words p).take k)))) := by
  refine ⟨?_, ?_, ?_⟩
  · intro input seed profile intensity k o hk h
    rcases enhance_out_shape input seed profile intensity k o h with ⟨ho, he⟩ | ⟨m, hm, ho⟩
    · rw [ho]
      have hws := pyStrip_empty_all_ws input he
      rw [countWords, words_of_all_ws input hws]
      simp
    · rw [ho]
      exact countWords_enforce_le _ _
  · intro p k h
    simp only [enforce_length_limit]
    rw [if_pos (show (words p).length ≤ k from h)]
  · intro p k h
    simp only [enforce_length_limit]
    rw [if_neg (show ¬ (words p).length ≤ k from h)]

theorem claim_C2_witness :
    (1 ≤ 1 ∧ countWords (str "big") ≤ 1) ∧
    enforce_length_limit (str "big") 3 = str "big" ∧
    enforce_length_limit (str "a b, c") 1
      = rstripWs (rstripComma (joinWith [' '] ((words (str "a b, c")).take 1))) :=
  ⟨⟨by decide, claim_C2_word_limit.1 (str "zzz") 42 exProfileA (str "full") 1 (str "big")
      (by decide) (by decide)⟩,
   claim_C2_word_limit.2.1 (str "big") 3 (by decide),
   claim_C2_word_limit.2.2 (str "a b, c") 1 (by decide)⟩

/-- C3 (amended): anti-pair avoidance up to probe misses.  On a non-empty
pool the selection always returns a pool member; the result is
conflict-free whenever the bounded probe sequence (hash-indexed attempts
`0 .. min(len, 50) - 1` at the conflict coordinates) finds any
conflict-free candidate, and only when every probe conflicts does it fall
back to the (conflicting) primary pick.  The probes need not visit every
pool entry, so a conflict-free phrase may exist in the pool and still not
be chosen (see the counterexample). -/
theorem claim_C3_antipair (seed input_hash idx : Nat) (pool : List Str)
    (forbidden : List Str) (h : pool ≠ []) :
    ∃ sel, select_with_antipair_check seed input_hash idx pool forbidden = some sel ∧
      sel ∈ pool ∧
      (conflictsWith forbidden sel = false ∨
        (antipairSearch seed input_hash (idx + 1000) pool (List.length_pos.mpr h)
            forbidden 0 (min pool.length 50) = none ∧
          sel = pool.get ⟨hash_to_index (enhancement_hash seed input_hash idx) pool.length,
            Nat.mod_lt _ (List.length_pos.mpr h)⟩)) :=
  select_spec seed input_hash idx pool forbidden h

theorem claim_C3_witness :
    ([str "bad one", str "good"] : List Str) ≠ [] ∧
    ∃ sel, select_with_antipair_check 3 7 1 [str "bad one", str "good"] [str "bad"]
        = some sel ∧
      sel ∈ ([str "bad one", str "good"] : List Str) ∧
      (conflictsWith [str "bad"] sel = false ∨
        (antipairSearch 3 7 1001 [str "bad one", str "good"]
            (List.length_pos.mpr (by decide)) [str "bad"] 0
            (min ([str "bad one", str "good"] : List Str).length 50) = none ∧
          sel = ([str "bad one", str "good"] : List Str).get
            ⟨hash_to_index (enhancement_hash 3 7 1)
              ([str "bad one", str "good"] : List Str).length,
              Nat.mod_lt _ (List.length_pos.mpr (by decide))⟩)) :=
  ⟨by decide, claim_C3_antipair 3 7 1 [str "bad one", str "good"] [str "bad"] (by decide)⟩

/-- C3 counterexample: the pool holds the conflict-free phrase "good", the
primary pick "bad one" conflicts, and the probe sequence still returns the
conflicting primary pick — the pool was not exhausted of conflict-free
alternatives. -/
theorem claim_C3_counterexample :
    select_with_antipair_check 3 7 1 [str "bad one", str "good"] [str "bad"]
      = some (str "bad one") ∧
    conflictsWith [str "bad"] (str "bad one") = true ∧
    (str "good") ∈ ([str "bad one", str "good"] : List Str) ∧
    conflictsWith [str "bad"] (str "good") = false := by decide

/-- C4 (amended): token preservation through the merge stage.  Every
tokenized input token that lands only in the synthetic "unclassified"
bucket appears verbatim in the merged string of phase 6 (template result
plus comma-joined unclassified tokens).  The later deduplication and
length-enforcement stages may still drop it (see the counterexample), so
verbatim survival holds at the merge stage, not at the final output. -/
theorem claim_C4_merge_preserves (seed : Nat) (profile : Profile) (intensity : Str)
    (input : Str) (m : Str)
    (hm : V2.mergedOf seed profile intensity input = some m) :
    ∀ t ∈ ((classifiedOf profile input).lookup (str "unclassified")).getD [],
      containsSub t m = true := by
  intro t ht
  simp only [V2.mergedOf] at hm
  cases he : V2.enhancementsOf seed profile intensity input with
  | none =>
    rw [he] at hm
    exact absurd hm (by simp)
  | some enh =>
    simp only [he] at hm
    cases htpl : select_template seed (fingerprint input) profile.templates with
    | none =>
      rw [htpl] at hm
      exact absurd hm (by simp)
    | some tpl =>
      simp only [htpl] at hm
      have hm2 : merge_with_unclassified
          (safe_format_template tpl (componentsOf (classifiedOf profile input) enh))
          (((classifiedOf profile input).lookup (str "unclassified")).getD []) = m := by
        injection hm
      rw [← hm2, merge_with_unclassified]
      have hne : ((((classifiedOf profile input).lookup (str "unclassified")).getD
          []).isEmpty) = false := by
        cases hq : (((classifiedOf profile input).lookup (str "unclassified")).getD []) with
        | nil =>
          rw [hq] at ht
          exact absurd ht (List.not_mem_nil t)
        | cons a b => rfl
      rw [hne]
      simp only [Bool.false_eq_true, if_false]
      rw [containsSub_iff_isInfix]
      exact List.IsInfix.trans
        (mem_joinWith_isInfix (str ", ") _ t ht)
        (List.IsSuffix.isInfix (List.suffix_append _ _))

theorem claim_C4_witness :
    V2.mergedOf 42 exProfileA (str "full") (str "zzz") = some (str "big long phrase, zzz") ∧
    containsSub (str "zzz") (str "big long phrase, zzz") = true :=
  ⟨by decide,
   claim_C4_merge_preserves 42 exProfileA (str "full") (str "zzz")
     (str "big long phrase, zzz") (by decide) (str "zzz") (by decide)⟩

/-- C4 counterexample: with a one-word budget, the unclassified token
"zzz" is dropped by length enforcement and does not appear in the final
output, refuting verbatim survival at the level of `enhance_prompt`. -/
theorem claim_C4_counterexample :
    V2.enhance_prompt (str "zzz") 42 exProfileA (str "full") 1 = some (str "big") ∧
    (str "zzz") ∈ ((classifiedOf exProfileA (str "zzz")).lookup (str "unclassified")).getD [] ∧
    containsSub (str "zzz") (str "big") = false := by decide

/-- C5: empty-pool graceful degradation.  A gap whose pool is the empty
sequence is skipped by V2's selection loop exactly as if it were not a
gap; the guarded loop never fails; a category with an empty (or missing)
classification bucket and no selected enhancement substitutes to the
empty string; and with a non-empty template list the whole V2 entry point
always returns a value, whatever empty pools the profile holds. -/
theorem claim_C5_empty_pool :
    (∀ (seed input_hash : Nat) (pools : List (Str × List Str)) (forbidden : List Str)
        (i : Nat) (gap : Str) (rest : List Str),
      List.lookup gap pools = some [] →
      V2.selectLoop seed input_hash pools forbidden i (gap :: rest)
        = V2.selectLoop seed input_hash pools forbidden (i + 1) rest) ∧
    (∀ (seed input_hash : Nat) (pools : List (Str × List Str)) (forbidden : List Str)
        (gaps : List Str) (i : Nat),
      ∃ enhs, V2.selectLoop seed input_hash pools forbidden i gaps = some enhs) ∧
    (∀ (classified : List (Str × List Str)) (enhs : List (Str × Str)) (cat : Str),
      cat ∈ ORDERED_CATEGORIES →
      (List.lookup cat classified = none ∨
        ∃ l, List.lookup cat classified = some l ∧ l.isEmpty = true) →
      List.lookup cat enhs = none →
      (componentsOf classified enhs).lookup cat = some []) ∧
    (∀ (input : Str) (seed : Nat) (profile : Profile) (intensity : Str) (k : Nat),
      profile.templates ≠ [] →
      ∃ o, V2.enhance_prompt input seed profile intensity k = some o) := by
  refine ⟨?_, v2_selectLoop_isSome, componentsOf_blank, ?_⟩
  · intro seed input_hash pools forbidden i gap rest h
    rw [V2.selectLoop]
    simp [h]
  · intro input seed profile intensity k htpl
    rw [V2.enhance_prompt]
    by_cases he : (pyStrip input).isEmpty = true
    · rw [if_pos he]
      exact ⟨input, rfl⟩
    · rw [if_neg he]
      obtain ⟨enhs, henhs⟩ := v2_selectLoop_isSome seed (fingerprint input) profile.pools
        (forbiddenOf profile input) (sortStr (gapsFinal seed profile intensity input)) 0
      have htl : 0 < profile.templates.length := List.length_pos.mpr htpl
      simp only [V2.mergedOf, V2.enhancementsOf, henhs]
      rw [select_template, dif_pos htl]
      exact ⟨_, rfl⟩

theorem claim_C5_witness :
    (List.lookup (str "style") exProfileC.pools = some [] ∧
      V2.selectLoop 0 0 exProfileC.pools [] 0 [str "style"]
        = V2.selectLoop 0 0 exProfileC.pools [] 1 []) ∧
    (∃ enhs, V2.selectLoop 0 0 exProfileC.pools [] 0 [str "style", str "mood"]
      = some enhs) ∧
    (componentsOf [] []).lookup (str "style") = some [] ∧
    (∃ o, V2.enhance_prompt (str "x") 0 exProfileC (str "full") 5 = some o) :=
  ⟨⟨by decide, claim_C5_empty_pool.1 0 0 exProfileC.pools [] 0 (str "style") [] (by decide)⟩,
   claim_C5_empty_pool.2.1 0 0 exProfileC.pools [] [str "style", str "mood"] 0,
   claim_C5_empty_pool.2.2.1 [] [] (str "style") (by decide) (Or.inl (by decide)) (by decide),
   claim_C5_empty_pool.2.2.2 (str "x") 0 exProfileC (str "full") 5 (by decide)⟩

/-- C6 (amended): coordinate separation of selection decisions.  For any
call whose rule-filtered gap list has at most 950 entries, two distinct
decisions among the template pick (coordinate 0), the per-gap primary
picks (1..N), the anti-pair fallback attempts (1000 + category + 1 +
attempt) and the gap-inclusion scores (2000 + index) always query the
seeded hash at distinct coordinates — except that anti-pair attempts of
two different categories may collide (their offsets overlap; see the
counterexample), which the original claim overlooked. -/
theorem claim_C6_coordinates (prompt : Str) (seed : Nat) (profile : Profile)
    (intensity : Str)
    (hG : (gapsAfterRules profile intensity prompt).length ≤ 950) :
    ∀ p ∈ V2.decisionsOf prompt seed profile intensity,
      ∀ q ∈ V2.decisionsOf prompt seed profile intensity,
        p.1 ≠ q.1 →
        (∀ i a j b, p.1 = V2.DecisionId.antiAttempt i a →
          q.1 = V2.DecisionId.antiAttempt j b → i = j) →
        p.2 ≠ q.2 :=
  V2.coord_partition_core prompt seed profile intensity hG

theorem claim_C6_witness :
    ((gapsAfterRules exProfileB (str "full") (str "trig")).length ≤ 950 ∧
      (V2.DecisionId.template, (0 : Nat)) ∈ V2.decisionsOf (str "trig") 0 exProfileB (str "full") ∧
      (V2.DecisionId.primary 0, (1 : Nat)) ∈ V2.decisionsOf (str "trig") 0 exProfileB (str "full")) ∧
    (0 : Nat) ≠ 1 :=
  ⟨⟨by decide, by decide, by decide⟩,
   claim_C6_coordinates (str "trig") 0 exProfileB (str "full") (by decide)
     (V2.DecisionId.template, 0) (by decide)
     (V2.DecisionId.primary 0, 1) (by decide)
     (by decide)
     (fun i a j b h1 _ => nomatch h1)⟩

/-- C6 counterexample: in one call, the anti-pair fallback attempts of two
different gap categories (category 0, attempt 1 and category 1, attempt 0)
both query coordinate 1002 — two distinct decisions sharing a coordinate. -/
theorem claim_C6_counterexample :
    (V2.DecisionId.antiAttempt 0 1, (1002 : Nat)) ∈ V2.decisionsOf (str "trig") 0 exProfileB (str "full") ∧
    (V2.DecisionId.antiAttempt 1 0, (1002 : Nat)) ∈ V2.decisionsOf (str "trig") 0 exProfileB (str "full") ∧
    V2.DecisionId.antiAttempt 0 1 ≠ V2.DecisionId.antiAttempt 1 0 := by decide

/-- C7: formatting invariant.  Every successful V2 call returns a string
with no two consecutive commas, no leading comma, and no trailing comma. -/
theorem claim_C7_formatting (input : Str) (seed : Nat) (profile : Profile)
    (intensity : Str) (k : Nat) (o : Str)
    (h : V2.enhance_prompt input seed profile intensity k = some o) :
    containsSub (str ",,") o = false ∧ o.head? ≠ some ',' ∧ o.getLast? ≠ some ',' := by
  have hpair : str ",," = ([',', ','] : Str) := rfl
  rcases enhance_out_shape input seed profile intensity k o h with ⟨ho, he⟩ | ⟨m, hm, ho⟩
  · rw [ho]
    have hws := pyStrip_empty_all_ws input he
    obtain ⟨h1, h2, h3⟩ := okOut_of_no_comma input (all_ws_no_comma input hws)
    refine ⟨?_, h2, h3⟩
    rw [hpair, containsSub_eq_false_iff]
    exact h1
  · rw [ho]
    obtain ⟨hok, hwords⟩ := dedup_okOut m
    obtain ⟨h1, h2, h3⟩ := enforce_ok (deduplicate_prompt m) k hok hwords
    refine ⟨?_, h2, h3⟩
    rw [hpair, containsSub_eq_false_iff]
    exact h1

theorem claim_C7_witness :
    containsSub (str ",,") (str "big") = false ∧
    (str "big").head? ≠ some ',' ∧ (str "big").getLast? ≠ some ',' :=
  claim_C7_formatting (str "zzz") 42 exProfileA (str "full") 1 (str "big") (by decide)

/-- C8: intensity thinning.  The rate table is exactly minimal = 1/4,
light = 1/2, moderate = 3/4, full = 1/1; at rate 1 every gap is kept; at a
rate below 1 with `n = max 1 (floor (len * rate))`, all gaps are kept when
`len ≤ n`, and otherwise the kept list is the first `n` entries of an
ascending-by-score reordering of the gaps scored by
`hash(seed, fingerprint, 2000 + i)` — so exactly `n` gaps with
minimal scores, a deterministic function of the inputs. -/
theorem claim_C8_thinning (seed input_hash : Nat) (gaps : List Str) (intensity : Str) :
    (select_gaps_to_fill seed input_hash gaps (str "full") = gaps) ∧
    (INTENSITY_RATES.lookup (str "minimal") = some (1, 4) ∧
     INTENSITY_RATES.lookup (str "light") = some (1, 2) ∧
     INTENSITY_RATES.lookup (str "moderate") = some (3, 4) ∧
     INTENSITY_RATES.lookup (str "full") = some (1, 1)) ∧
    (∀ r : Nat × Nat, INTENSITY_RATES.lookup intensity = some r → r.1 < r.2 →
      gaps.length ≤ max 1 (gaps.length * r.1 / r.2) →
      select_gaps_to_fill seed input_hash gaps intensity = gaps) ∧
    (∀ r : Nat × Nat, INTENSITY_RATES.lookup intensity = some r → r.1 < r.2 →
      max 1 (gaps.length * r.1 / r.2) < gaps.length →
      ∃ l', List.Perm l' (gaps.enum.map
          (fun ig => (ig.2, enhancement_hash seed input_hash (2000 + ig.1)))) ∧
        List.Pairwise (fun p q : Str × Nat => p.2 ≤ q.2) l' ∧
        select_gaps_to_fill seed input_hash gaps intensity
          = (l'.take (max 1 (gaps.length * r.1 / r.2))).map Prod.fst ∧
        (∀ p ∈ l'.take (max 1 (gaps.length * r.1 / r.2)),
         ∀ q ∈ l'.drop (max 1 (gaps.length * r.1 / r.2)), p.2 ≤ q.2)) := by
  refine ⟨rfl, ⟨rfl, rfl, rfl, rfl⟩, ?_, ?_⟩
  · intro r hr h12 hlen
    simp only [select_gaps_to_fill, hr, Option.getD_some]
    rw [if_neg (by omega), if_pos hlen]
  · intro r hr h12 hlen
    refine ⟨sortByScore (gaps.enum.map
        (fun ig => (ig.2, enhancement_hash seed input_hash (2000 + ig.1)))),
      sortByScore_perm _, sortByScore_pairwise _, ?_, ?_⟩
    · simp only [select_gaps_to_fill, hr, Option.getD_some]
      rw [if_neg (by omega), if_neg (by omega)]
    · exact pairwise_take_drop (sortByScore_pairwise _) _

theorem claim_C8_witness :
    INTENSITY_RATES.lookup (str "minimal") = some (1, 4) ∧
    (∃ l', List.Perm l' (([str "a", str "b", str "c"] : List Str).enum.map
        (fun ig => (ig.2, enhancement_hash 5 9 (2000 + ig.1)))) ∧
      List.Pairwise (fun p q : Str × Nat => p.2 ≤ q.2) l' ∧
      select_gaps_to_fill 5 9 [str "a", str "b", str "c"] (str "minimal")
        = (l'.take 1).map Prod.fst ∧
      (∀ p ∈ l'.take 1, ∀ q ∈ l'.drop 1, p.2 ≤ q.2)) :=
  ⟨(claim_C8_thinning 5 9 [str "a", str "b", str "c"] (str "minimal")).2.1.1,
   (claim_C8_thinning 5 9 [str "a", str "b", str "c"] (str "minimal")).2.2.2 (1, 4)
     (by decide) (by decide) (by decide)⟩

/-- C9: variant equivalence.  For every input, seed, intensity and word
budget, the V1 engine computes exactly what the V2 engine computes on
V2's built-in default profile: the two variants are one
profile-parameterized engine. -/
theorem claim_C9_variant_equivalence (input : Str) (seed : Nat) (intensity : Str) (k : Nat) :
    V1.enhance_prompt input seed intensity k
      = V2.enhance_prompt input seed V2.DEFAULT_PROFILE intensity k := by
  simp only [V1.enhance_prompt, V2.enhance_prompt]
  by_cases he : (pyStrip input).isEmpty = true
  · rw [if_pos he, if_pos he]
  · rw [if_neg he, if_neg he]
    rw [show V1.DEFAULT_PROFILE = V2.DEFAULT_PROFILE from rfl]
    have hloop : V1.selectLoop seed (fingerprint input) V1.DEFAULT_PROFILE.pools
        (forbiddenOf V1.DEFAULT_PROFILE input) 0
        (sortStr (gapsFinal seed V1.DEFAULT_PROFILE intensity input))
        = V2.selectLoop seed (fingerprint input) V2.DEFAULT_PROFILE.pools
          (forbiddenOf V2.DEFAULT_PROFILE input) 0
          (sortStr (gapsFinal seed V2.DEFAULT_PROFILE intensity input)) :=
      selectLoop_eq seed (fingerprint input) V2.DEFAULT_PROFILE.pools
        (forbiddenOf V2.DEFAULT_PROFILE input)
        (sortStr (gapsFinal seed V2.DEFAULT_PROFILE intensity input)) 0
        (fun g hgmem => defaultPools_lookup_nonempty g
          (gapsFinal_subset_keys seed V2.DEFAULT_PROFILE intensity input g hgmem))
    rw [show V1.DEFAULT_PROFILE = V2.DEFAULT_PROFILE from rfl] at hloop
    rw [hloop]
    simp only [V2.mergedOf, V2.enhancementsOf]
    cases hL : V2.selectLoop seed (fingerprint input) V2.DEFAULT_PROFILE.pools
        (forbiddenOf V2.DEFAULT_PROFILE input) 0
        (sortStr (gapsFinal seed V2.DEFAULT_PROFILE intensity input)) with
    | none => rfl
    | some enh =>
      cases hT : select_template seed (fingerprint input) V2.DEFAULT_PROFILE.templates with
      | none => rfl
      | some tpl => rfl

/-- C10: empty-input short-circuit.  An empty or all-whitespace input is
returned unchanged by both variants, and the call makes no coordinate-hash
queries at all (its ghost decision log is empty): no enhancement stage
runs. -/
theorem claim_C10_empty_input (input : Str) (seed : Nat) (profile : Profile)
    (intensity : Str) (k : Nat)
    (h : input = [] ∨ ∀ c ∈ input, isWs c = true) :
    V2.enhance_prompt input seed profile intensity k = some input ∧
    V1.enhance_prompt input seed intensity k = some input ∧
    V2.decisionsOf input seed profile intensity = [] := by
  have hws : ∀ c ∈ input, isWs c = true := by
    rcases h with h | h
    · subst h
      intro c hc
      exact absurd hc (List.not_mem_nil c)
    · exact h
  have he := all_ws_pyStrip_empty input hws
  refine ⟨?_, ?_, ?_⟩
  · rw [V2.enhance_prompt, if_pos he]
  · simp only [V1.enhance_prompt]
    rw [if_pos he]
  · rw [V2.decisionsOf, if_pos he]

theorem claim_C10_witness :
    V2.enhance_prompt (str "  ") 7 exProfileA (str "moderate") 9 = some (str "  ") ∧
    V1.enhance_prompt (str "  ") 7 (str "moderate") 9 = some (str "  ") ∧
    V2.decisionsOf (str "  ") 7 exProfileA (str "moderate") = [] :=
  claim_C10_empty_input (str "  ") 7 exProfileA (str "moderate") 9 (Or.inr (by decide))

end ZeroENH

